import Mathlib

/-!
Verification of the pseudovpn client/worker code.

The JavaScript sources are embedded shallowly:

* JS strings are modelled as `List Char` (`JStr`); the values appearing in the
  program are ASCII, and byte-level conversions (`Buffer.from`, `atob`) are
  modelled as code-point lists, which agrees with UTF-8 on ASCII data.
* `JSON.stringify` / `JSON.parse` are modelled for the JSON fragment the
  program actually exchanges: flat objects whose values are strings, integers,
  booleans or null, serialized without insignificant whitespace.
* `Date.now()`, `crypto.randomUUID()`, `crypto.randomBytes` and the network are
  modelled as explicit environment inputs; `crypto.createHmac` is an arbitrary
  function supplied by the environment (the program never verifies signatures,
  so no property depends on its definition).
* Each stateful method of `PseudoVPNClient` becomes a function from an explicit
  `ClientState` to a new `ClientState`, returning errors through `Except` and
  recording its observable side effects (probes, handshakes, connect calls,
  notifications) in a `Trace`.
-/

/-! ## JS strings -/

/-- JS strings, modelled as lists of characters (all data in scope is ASCII). -/
abbrev JStr := List Char

/-- Opening brace character. -/
def lbrace : Char := Char.ofNat 123

/-- Closing brace character. -/
def rbrace : Char := Char.ofNat 125

/-- Every character of the string is ASCII (code point below 128). -/
def allAscii (s : JStr) : Bool := s.all (fun c => c.toNat < 128)

/-! ## JSON values (flat objects) -/

/-- Primitive JSON values: strings, integer numbers, booleans, null.  The
numbers exchanged by this program (timestamps, status counts) are integers. -/
inductive JPrim where
  | str (s : JStr)
  | num (n : Int)
  | bool (b : Bool)
  | null
  deriving DecidableEq, Repr

/-- A flat JSON object: an ordered list of key/primitive pairs. -/
abbrev JFlat := List (JStr × JPrim)

/-- Hexadecimal digit character (lowercase), as produced by `JSON.stringify`
for control-character escapes. -/
def hexDigitChar (n : Nat) : Char :=
  if n < 10 then Char.ofNat (48 + n) else Char.ofNat (87 + n)

/-- `JSON.stringify` escaping of a single character inside a string literal. -/
def escapeChar (c : Char) : List Char :=
  if c = '"' then ['\\', '"']
  else if c = '\\' then ['\\', '\\']
  else if c = Char.ofNat 8 then ['\\', 'b']
  else if c = Char.ofNat 9 then ['\\', 't']
  else if c = Char.ofNat 10 then ['\\', 'n']
  else if c = Char.ofNat 12 then ['\\', 'f']
  else if c = Char.ofNat 13 then ['\\', 'r']
  else if c.toNat < 32 then
    ['\\', 'u', '0', '0', hexDigitChar (c.toNat / 16), hexDigitChar (c.toNat % 16)]
  else [c]

/-- `JSON.stringify` escaping of a whole string body. -/
def escapeStr (s : JStr) : JStr := (s.map escapeChar).flatten

/-- Decimal digits with an explicit recursion bound (`n / 10` decreases, so
any `fuel > n` is enough; structural recursion on the fuel keeps the function
computable by kernel reduction). -/
def natDigitsAux : Nat → Nat → List Char
  | 0, _ => []
  | fuel + 1, n =>
      if n < 10 then [Char.ofNat (48 + n)]
      else natDigitsAux fuel (n / 10) ++ [Char.ofNat (48 + n % 10)]

/-- Decimal digits of a natural number, most significant first. -/
def natDigits (n : Nat) : List Char := natDigitsAux (n + 1) n

/-- Decimal rendering of an integer, as JS prints integral numbers. -/
def intChars (n : Int) : List Char :=
  if n < 0 then '-' :: natDigits n.natAbs else natDigits n.toNat

/-- `JSON.stringify` of a primitive value. -/
def stringifyPrim : JPrim → JStr
  | .str s => '"' :: (escapeStr s ++ ['"'])
  | .num n => intChars n
  | .bool true => ("true".toList)
  | .bool false => ("false".toList)
  | .null => ("null".toList)

/-- `JSON.stringify` of the comma-separated members of a flat object. -/
def stringifyPairs : JFlat → JStr
  | [] => []
  | [(k, v)] => '"' :: (escapeStr k ++ '"' :: ':' :: stringifyPrim v)
  | (k, v) :: rest =>
      ('"' :: (escapeStr k ++ '"' :: ':' :: stringifyPrim v)) ++ ',' :: stringifyPairs rest

/-- `JSON.stringify` of a flat object (no insignificant whitespace, keys in
insertion order, exactly as JS serializes object literals). -/
def stringifyFlat (o : JFlat) : JStr := lbrace :: (stringifyPairs o ++ [rbrace])

/-! ## JSON parsing (the `JSON.parse` fragment used by the program) -/

/-- Is the character a decimal digit. -/
def isDigitChar (c : Char) : Bool := 48 ≤ c.toNat && c.toNat ≤ 57

/-- Consume a maximal run of decimal digits, accumulating their value. -/
def parseDigitsAux : List Char → Nat → Nat × List Char
  | [], acc => (acc, [])
  | c :: rest, acc =>
      if isDigitChar c then parseDigitsAux rest (acc * 10 + (c.toNat - 48))
      else (acc, c :: rest)

/-- Parse a JSON integer (optional minus sign followed by digits). -/
def parseJNum : List Char → Option (Int × List Char)
  | [] => none
  | c :: rest =>
      if c = '-' then
        match rest with
        | c2 :: _ =>
            if isDigitChar c2 then
              let p := parseDigitsAux rest 0
              some (-(p.1 : Int), p.2)
            else none
        | [] => none
      else if isDigitChar c then
        let p := parseDigitsAux (c :: rest) 0
        some ((p.1 : Int), p.2)
      else none

/-- Numeric value of a hexadecimal digit character (either case). -/
def hexVal (c : Char) : Option Nat :=
  if 48 ≤ c.toNat ∧ c.toNat ≤ 57 then some (c.toNat - 48)
  else if 97 ≤ c.toNat ∧ c.toNat ≤ 102 then some (c.toNat - 87)
  else if 65 ≤ c.toNat ∧ c.toNat ≤ 70 then some (c.toNat - 55)
  else none

/-- Unescaping of the single-character JSON escapes. -/
def unescapeSimple (e : Char) : Option Char :=
  if e = '"' then some '"'
  else if e = '\\' then some '\\'
  else if e = '/' then some '/'
  else if e = 'b' then some (Char.ofNat 8)
  else if e = 'f' then some (Char.ofNat 12)
  else if e = 'n' then some (Char.ofNat 10)
  else if e = 'r' then some (Char.ofNat 13)
  else if e = 't' then some (Char.ofNat 9)
  else none

/-- Parse the body of a JSON string literal (the opening quote has already been
consumed); returns the decoded string and the input after the closing quote.
Rejects raw control characters, as `JSON.parse` does. -/
def parseJStrBody : List Char → Option (JStr × List Char)
  | [] => none
  | c :: rest =>
      if c = '"' then some ([], rest)
      else if c = '\\' then
        match rest with
        | [] => none
        | e :: rest2 =>
            if e = 'u' then
              match rest2 with
              | h1 :: h2 :: h3 :: h4 :: rest3 =>
                  match hexVal h1, hexVal h2, hexVal h3, hexVal h4 with
                  | some a, some b, some c2, some d =>
                      (fun p => (Char.ofNat (((a * 16 + b) * 16 + c2) * 16 + d) :: p.1, p.2)) <$>
                        parseJStrBody rest3
                  | _, _, _, _ => none
              | _ => none
            else
              match unescapeSimple e with
              | some c2 => (fun p => (c2 :: p.1, p.2)) <$> parseJStrBody rest2
              | none => none
      else if c.toNat < 32 then none
      else (fun p => (c :: p.1, p.2)) <$> parseJStrBody rest

/-- Parse a primitive JSON value. -/
def parseJPrim (l : List Char) : Option (JPrim × List Char) :=
  match l with
  | [] => none
  | c :: rest =>
      if c = '"' then (fun p => (JPrim.str p.1, p.2)) <$> parseJStrBody rest
      else if isDigitChar c || c = '-' then (fun p => (JPrim.num p.1, p.2)) <$> parseJNum l
      else if ("true".toList).isPrefixOf l then some (.bool true, l.drop 4)
      else if ("false".toList).isPrefixOf l then some (.bool false, l.drop 5)
      else if ("null".toList).isPrefixOf l then some (.null, l.drop 4)
      else none

/-- Parse the members of a flat JSON object, starting just after `{` or `,`;
stops after the closing brace.  `fuel` bounds the number of members. -/
def parseJPairs : Nat → List Char → Option (JFlat × List Char)
  | 0, _ => none
  | fuel + 1, '"' :: rest =>
      match parseJStrBody rest with
      | none => none
      | some (k, rest1) =>
          match rest1 with
          | ':' :: rest2 =>
              match parseJPrim rest2 with
              | none => none
              | some (v, rest3) =>
                  if rest3.head? = some rbrace then some ([(k, v)], rest3.tail)
                  else if rest3.head? = some ',' then
                    (fun p => ((k, v) :: p.1, p.2)) <$> parseJPairs fuel rest3.tail
                  else none
          | _ => none
  | _ + 1, _ => none

/-- `JSON.parse` for a flat JSON object; requires the whole input to be
consumed, as `JSON.parse` does. -/
def parseJFlat (s : JStr) : Option JFlat :=
  match s with
  | [] => none
  | c0 :: rest =>
      if c0 = lbrace then
        if rest.head? = some rbrace then
          if rest.tail = [] then some [] else none
        else
          match parseJPairs (rest.length + 1) rest with
          | some (o, []) => some o
          | _ => none
      else none

/-! ## Base64: the client encodes with the `base64url` alphabet (Node
`Buffer.toString('base64url')`, unpadded); the Deno worker decodes with `atob`
(WHATWG forgiving-base64, standard alphabet). -/

/-- Code point of the base64url alphabet character for a 6-bit value. -/
def b64UrlCode (v : Nat) : Nat :=
  if v < 26 then 65 + v
  else if v < 52 then 97 + (v - 26)
  else if v < 62 then 48 + (v - 52)
  else if v = 62 then 45
  else 95

/-- Value of a character of the standard base64 alphabet (`A-Za-z0-9+/`), the
alphabet `atob` accepts; url-safe `-` and `_` are not in it. -/
def b64StdVal (c : Char) : Option Nat :=
  let n := c.toNat
  if 65 ≤ n ∧ n ≤ 90 then some (n - 65)
  else if 97 ≤ n ∧ n ≤ 122 then some (n - 97 + 26)
  else if 48 ≤ n ∧ n ≤ 57 then some (n - 48 + 52)
  else if n = 43 then some 62
  else if n = 47 then some 63
  else none

/-- The character is in the standard base64 alphabet. -/
def isStdB64Char (c : Char) : Bool := (b64StdVal c).isSome

/-- Split a byte list into base64 6-bit groups (big-endian bit order). -/
def bytesToSextets : List Nat → List Nat
  | [] => []
  | [b1] => [b1 / 4, b1 % 4 * 16]
  | [b1, b2] => [b1 / 4, b1 % 4 * 16 + b2 / 16, b2 % 16 * 4]
  | b1 :: b2 :: b3 :: rest =>
      (b1 / 4) :: (b1 % 4 * 16 + b2 / 16) :: (b2 % 16 * 4 + b3 / 64) :: (b3 % 64) ::
        bytesToSextets rest

/-- Node `Buffer.toString('base64url')`: url-safe alphabet, no padding. -/
def base64urlEncode (bytes : List Nat) : JStr :=
  (bytesToSextets bytes).map (fun v => Char.ofNat (b64UrlCode v))

/-- ASCII whitespace removed by forgiving-base64 decode. -/
def isB64Ws (c : Char) : Bool :=
  c.toNat = 9 || c.toNat = 10 || c.toNat = 12 || c.toNat = 13 || c.toNat = 32

/-- Strip up to two trailing `=` when the length is a multiple of four
(forgiving-base64 step 2). -/
def stripPad (l : List Char) : List Char :=
  if l.length % 4 = 0 then
    match l.reverse with
    | '=' :: '=' :: r => r.reverse
    | '=' :: r => r.reverse
    | _ => l
  else l

/-- Reassemble bytes from 6-bit groups; a trailing group of one sextet is
invalid, trailing bits of a 2- or 3-sextet group are discarded. -/
def sextetsToBytes : List Nat → Option (List Nat)
  | [] => some []
  | [_] => none
  | [v1, v2] => some [v1 * 4 + v2 / 16]
  | [v1, v2, v3] => some [v1 * 4 + v2 / 16, v2 % 16 * 16 + v3 / 4]
  | v1 :: v2 :: v3 :: v4 :: rest =>
      (fun bs => (v1 * 4 + v2 / 16) :: (v2 % 16 * 16 + v3 / 4) :: (v3 % 4 * 64 + v4) :: bs) <$>
        sextetsToBytes rest

/-- WHATWG forgiving-base64 decode, the semantics of `atob`. -/
def forgivingBase64 (s : JStr) : Option (List Nat) :=
  let l := s.filter (fun c => !isB64Ws c)
  let l := stripPad l
  if l.length % 4 = 1 then none
  else
    match l.mapM b64StdVal with
    | none => none
    | some vs => sextetsToBytes vs

/-! ## Characters to bytes (ASCII fragment of UTF-8 / latin1) -/

/-- Bytes of a string (`Buffer.from(s)`); on ASCII data UTF-8 is the identity
on code points. -/
def strBytes (s : JStr) : List Nat := s.map Char.toNat

/-- String from bytes (the binary string `atob` returns); on ASCII data this
inverts `strBytes`. -/
def bytesToStr (bs : List Nat) : JStr := bs.map Char.ofNat

/-! ## Session tokens (`generateSessionToken` in the client,
`validateToken` in the workers) -/

/-- The payload object built by `generateSessionToken`. -/
structure TokenPayload where
  country : JStr
  workerId : JStr
  sessionId : JStr
  issued : Nat
  expires : Nat
  deriving DecidableEq, Repr

/-- The payload as the JSON object the client serializes (JS object literal
key order). -/
def payloadJson (p : TokenPayload) : JFlat :=
  [(("country".toList), .str p.country),
   (("workerId".toList), .str p.workerId),
   (("sessionId".toList), .str p.sessionId),
   (("issued".toList), .num p.issued),
   (("expires".toList), .num p.expires)]

/-- The fixed JWT header `{alg:"HS256",typ:"JWT"}` as serialized by the
client. -/
def jwtHeaderJson : JStr :=
  lbrace :: (("\"alg\":\"HS256\",\"typ\":\"JWT\"".toList) ++ [rbrace])

/-- Authentication configuration (`config.auth`). -/
structure AuthCfg where
  tokenDuration : Nat
  refreshBuffer : Nat
  deriving DecidableEq, Repr

/-- Environment inputs consumed by `generateSessionToken`: the clock, the
generated UUID and signing secret, and the HMAC primitive. -/
structure GenEnv where
  now : Nat
  sessionId : JStr
  secret : JStr
  hmac : JStr → JStr → List Nat

/-- Result of `generateSessionToken`. -/
structure SessionInfo where
  token : JStr
  payload : TokenPayload
  secret : JStr

/-- `generateSessionToken(country, workerId)`: header and payload are
base64url-encoded JSON, the signature is the HMAC of `header.payload` under a
freshly generated secret. -/
def generateSessionToken (auth : AuthCfg) (env : GenEnv) (country workerId : JStr) :
    SessionInfo :=
  let payload : TokenPayload :=
    { country := country, workerId := workerId, sessionId := env.sessionId,
      issued := env.now, expires := env.now + auth.tokenDuration * 1000 }
  let header := base64urlEncode (strBytes jwtHeaderJson)
  let payloadB64 := base64urlEncode (strBytes (stringifyFlat (payloadJson payload)))
  let signature := base64urlEncode (env.hmac env.secret (header ++ '.' :: payloadB64))
  { token := header ++ '.' :: (payloadB64 ++ '.' :: signature),
    payload := payload, secret := env.secret }

/-- `String.prototype.split(sep)` for a single-character separator. -/
def splitOnChar (sep : Char) : List Char → List (List Char)
  | [] => [[]]
  | c :: rest =>
      match splitOnChar sep rest with
      | [] => [[]]
      | cur :: out => if c = sep then [] :: cur :: out else (c :: cur) :: out

/-- Last-occurrence lookup of a key in a parsed JSON object (duplicate keys in
a JSON text resolve to the last occurrence, as in `JSON.parse`). -/
def jget (o : JFlat) (k : JStr) : Option JPrim :=
  match o with
  | [] => none
  | (k', v) :: rest =>
      match jget rest k with
      | some v' => some v'
      | none => if k' = k then some v else none

/-- A JS number as needed by the comparison `Date.now() > payload.expires`:
NaN, the signed infinities, or a finite value `m * 10 ^ e`.  Finite values
are exact; the rounding of JS double precision is abstracted. -/
inductive JSNum where
  | nan
  | posInf
  | negInf
  | fin (m : Int) (e : Int)
  deriving DecidableEq, Repr

/-- JS whitespace trimmed by `ToNumber` on strings (ASCII fragment). -/
def isJsWs (c : Char) : Bool :=
  c.toNat = 9 || c.toNat = 10 || c.toNat = 11 || c.toNat = 12 || c.toNat = 13 || c.toNat = 32

/-- Trim JS whitespace from both ends of a string. -/
def jsTrim (s : JStr) : JStr :=
  ((s.dropWhile isJsWs).reverse.dropWhile isJsWs).reverse

/-- Numeric value of a run of decimal digits. -/
def digitsVal (ds : List Char) : Nat := ds.foldl (fun a c => a * 10 + (c.toNat - 48)) 0

/-- The characters form a nonempty run of decimal digits. -/
def allDigits (l : List Char) : Option (List Char) :=
  if l ≠ [] ∧ l.all isDigitChar then some l else none

/-- Parse a trailing JS exponent part (`e`/`E`, optional sign, digits);
`some 0` on the empty remainder, `none` when the remainder is anything
else. -/
def jsExpPart : List Char → Option Int
  | [] => some 0
  | c :: r =>
      if c = 'e' ∨ c = 'E' then
        match r with
        | '+' :: r2 => (fun ds => ((digitsVal ds : Nat) : Int)) <$> allDigits r2
        | '-' :: r2 => (fun ds => -((digitsVal ds : Nat) : Int)) <$> allDigits r2
        | r2 => (fun ds => ((digitsVal ds : Nat) : Int)) <$> allDigits r2
      else none

/-- Value of a JS `StrUnsignedDecimalLiteral` (digits, optional fraction,
optional exponent), as an exact mantissa/decimal-exponent pair; `none` when
the characters are not exactly such a literal. -/
def jsDecValue (l : List Char) : Option (Int × Int) :=
  let ip := l.takeWhile isDigitChar
  let r1 := l.dropWhile isDigitChar
  match r1 with
  | '.' :: r2 =>
      let fp := r2.takeWhile isDigitChar
      let r3 := r2.dropWhile isDigitChar
      if ip = [] ∧ fp = [] then none
      else
        match jsExpPart r3 with
        | none => none
        | some e =>
            some (((digitsVal ip * 10 ^ fp.length + digitsVal fp : Nat) : Int),
              e - (fp.length : Int))
  | _ =>
      if ip = [] then none
      else
        match jsExpPart r1 with
        | none => none
        | some e => some (((digitsVal ip : Nat) : Int), e)

/-- Digit value in the given radix (2, 8 or 16), for JS radix-prefix
literals. -/
def radixDigVal (radix : Nat) (c : Char) : Option Nat :=
  match hexVal c with
  | some d => if d < radix then some d else none
  | none => none

/-- Accumulate the value of radix digits; `none` on any non-digit. -/
def radixValAux (radix : Nat) : Nat → List Char → Option Nat
  | acc, [] => some acc
  | acc, c :: r =>
      match radixDigVal radix c with
      | none => none
      | some d => radixValAux radix (acc * radix + d) r

/-- Value of a nonempty run of radix digits; `none` otherwise. -/
def radixVal (radix : Nat) (l : List Char) : Option Nat :=
  if l = [] then none else radixValAux radix 0 l

/-- JS `ToNumber` of a primitive string (the `StringToNumber` operation on
the ASCII fragment): whitespace trimmed, empty is 0, an unsigned
`0x`/`0o`/`0b` radix literal, or an optional sign with `Infinity` or a
decimal literal; anything else is NaN. -/
def strToNumber (s : JStr) : JSNum :=
  let t := jsTrim s
  if t = [] then .fin 0 0
  else if t.take 2 = ['0', 'x'] ∨ t.take 2 = ['0', 'X'] then
    match radixVal 16 (t.drop 2) with
    | some n => .fin (n : Int) 0
    | none => .nan
  else if t.take 2 = ['0', 'o'] ∨ t.take 2 = ['0', 'O'] then
    match radixVal 8 (t.drop 2) with
    | some n => .fin (n : Int) 0
    | none => .nan
  else if t.take 2 = ['0', 'b'] ∨ t.take 2 = ['0', 'B'] then
    match radixVal 2 (t.drop 2) with
    | some n => .fin (n : Int) 0
    | none => .nan
  else
    match t with
    | '-' :: u =>
        if u = ("Infinity".toList) then .negInf
        else
          match jsDecValue u with
          | some (m, e) => .fin (-m) e
          | none => .nan
    | '+' :: u =>
        if u = ("Infinity".toList) then .posInf
        else
          match jsDecValue u with
          | some (m, e) => .fin m e
          | none => .nan
    | u =>
        if u = ("Infinity".toList) then .posInf
        else
          match jsDecValue u with
          | some (m, e) => .fin m e
          | none => .nan

/-- JS `ToNumber` of a JSON primitive value (numbers unchanged, booleans 1 or
0, null 0, strings parsed with `strToNumber`). -/
def jsToNumber : JPrim → JSNum
  | .num n => .fin n 0
  | .str s => strToNumber s
  | .bool true => .fin 1 0
  | .bool false => .fin 0 0
  | .null => .fin 0 0

/-- The JS comparison `Date.now() > payload.expires`: the member is coerced
with `ToNumber` (a missing member is `undefined`, which coerces to NaN), a
comparison with NaN is false, and the infinities compare as usual. -/
def jsAfterExpiry (now : Nat) (o : JFlat) : Bool :=
  match jget o ("expires".toList) with
  | none => false
  | some v =>
      match jsToNumber v with
      | .nan => false
      | .posInf => false
      | .negInf => true
      | .fin m e =>
          if 0 ≤ e then decide ((now : Int) > m * 10 ^ e.toNat)
          else decide ((now : Int) * 10 ^ (-e).toNat > m)

/-- The `sessionId` member of the payload, when it is a string. -/
def jsSessionId (o : JFlat) : Option JStr :=
  match jget o ("sessionId".toList) with
  | some (.str s) => some s
  | _ => none

/-- Decode the middle token segment: `JSON.parse(atob(parts[1]))`. -/
def decodePayloadSegment (seg : JStr) : Option JFlat :=
  match forgivingBase64 seg with
  | none => none
  | some bytes => parseJFlat (bytesToStr bytes)

/-- The distinct rejection reasons of `validateToken`, named after the spec
taxonomy.  In the JS code every one of them is a plain `return false`; the
constructors label which of the sequential guards rejected. -/
inductive VErr where
  | malformed | expired | mismatch
  deriving DecidableEq, Repr

/-- `validateToken(token, sessionId)` of the Deno worker, with the rejection
site recorded: empty token or not three dot-separated segments or undecodable
payload, then `Date.now() > payload.expires`, then
`payload.sessionId !== sessionId`, otherwise the decoded payload. -/
def validateTokenC (now : Nat) (token : JStr) (sessionId : JStr) : Except VErr JFlat :=
  if token = [] then .error .malformed
  else
    match splitOnChar '.' token with
    | [_, p1, _] =>
        match decodePayloadSegment p1 with
        | none => .error .malformed
        | some payload =>
            if jsAfterExpiry now payload then .error .expired
            else if jsSessionId payload ≠ some sessionId then .error .mismatch
            else .ok payload
    | _ => .error .malformed

/-- The observable wire behaviour of `validateToken`: `false` on any rejection
(the caller cannot distinguish the reasons), the payload otherwise. -/
def validateToken (now : Nat) (token : JStr) (sessionId : JStr) : Option JFlat :=
  (validateTokenC now token sessionId).toOption

/-! ## Health probes (`healthCheck`) -/

/-- Probe result statuses. -/
inductive ProbeStatus where
  | healthy | netfail | probeTimeout | invalid
  deriving DecidableEq, Repr

/-- The result object `healthCheck` resolves with (`status: 'error'` is
`ProbeStatus.netfail`, `status: 'timeout'` is `ProbeStatus.probeTimeout`). -/
structure ProbeResult where
  url : JStr
  status : ProbeStatus
  latency : Nat
  data : Option JFlat := none
  deriving DecidableEq, Repr

/-- What the network does for one probe: no event at all, an error event after
`elapsed` ms, or a response (headers after `elapsed` ms, then the given status
code and body). -/
inductive NetEvent where
  | silent
  | connError (elapsed : Nat)
  | response (elapsed : Nat) (statusCode : Nat) (body : JStr)
  deriving DecidableEq, Repr

/-- `healthCheck(workerUrl, timeout)`: resolves on every path, never rejects.
A response or error event that arrives at or after `timeout` ms loses the race
against the `setTimeout` handler, which has already resolved the promise with
status `timeout` and `latency` equal to the timeout value.  An earlier
response clears the timer and yields `healthy` (HTTP 200, parseable JSON
body), `error` (other status), or `invalid` (unparseable body); an earlier
error event yields `error` with the measured latency. -/
def healthCheck (workerUrl : JStr) (timeout : Nat) (ev : NetEvent) : ProbeResult :=
  match ev with
  | .silent => { url := workerUrl, status := .probeTimeout, latency := timeout }
  | .connError t =>
      if t < timeout then { url := workerUrl, status := .netfail, latency := t }
      else { url := workerUrl, status := .probeTimeout, latency := timeout }
  | .response t code body =>
      if t < timeout then
        match parseJFlat body with
        | some j =>
            { url := workerUrl,
              status := if code = 200 then .healthy else .netfail,
              latency := t, data := some j }
        | none => { url := workerUrl, status := .invalid, latency := t }
      else { url := workerUrl, status := .probeTimeout, latency := timeout }

/-! ## Configuration -/

/-- One region of the configuration: display name and ordered worker URLs. -/
structure RegionCfg where
  name : JStr
  workers : List JStr
  deriving DecidableEq, Repr

/-- Health-check configuration (`config.health`). -/
structure HealthCfg where
  checkInterval : Nat
  timeout : Nat
  deriving DecidableEq, Repr

/-- The client configuration (`config.json` / the built-in default). -/
structure Config where
  regions : List (JStr × RegionCfg)
  auth : AuthCfg
  health : HealthCfg
  deriving DecidableEq, Repr

/-- `this.config.regions[country]` (JS object property lookup). -/
def findRegion (cfg : Config) (country : JStr) : Option RegionCfg :=
  match cfg.regions.find? (fun r => decide (r.1 = country)) with
  | some r => some r.2
  | none => none

/-! ## Endpoint selection (`getBestWorker`) -/

/-- The probe outcomes for one connect attempt, supplied by the network. -/
structure ProbeEnv where
  probe : JStr → NetEvent

/-- `getBestWorker` calls `healthCheck(worker)` without a timeout argument, so
the JS default parameter `5000` applies (not `config.health.timeout`). -/
def healthCheckDefaultTimeout : Nat := 5000

/-- The `healthChecks` array of `getBestWorker`: one probe per configured
worker, in configuration order. -/
def regionHealthChecks (env : ProbeEnv) (region : RegionCfg) : List ProbeResult :=
  region.workers.map (fun w => healthCheck w healthCheckDefaultTimeout (env.probe w))

/-- The healthy probe results, in configuration order. -/
def healthyChecks (env : ProbeEnv) (region : RegionCfg) : List ProbeResult :=
  (regionHealthChecks env region).filter (fun c => decide (c.status = ProbeStatus.healthy))

/-- Stable insertion by latency: a later result is placed after every earlier
result of smaller or equal latency. -/
def insertByLatency (x : ProbeResult) : List ProbeResult → List ProbeResult
  | [] => [x]
  | y :: ys => if x.latency ≤ y.latency then x :: y :: ys else y :: insertByLatency x ys

/-- Stable sort by ascending latency.  JS `Array.prototype.sort` is required
to be stable, and the comparator `(a, b) => a.latency - b.latency` is a
consistent total preorder, so any stable sort produces the array the source
produces; insertion sort is used as the Lean model. -/
def sortByLatency : List ProbeResult → List ProbeResult
  | [] => []
  | x :: xs => insertByLatency x (sortByLatency xs)

/-- The errors thrown by the client, with the constructor carrying the data
interpolated into the JS `Error` message. -/
inductive ClientError where
  | unsupportedCountry (country : JStr)
  | noHealthy (country : JStr)
  | httpError (statusCode : Nat) (body : JStr)
  | invalidResponseFormat
  | connectionError
  deriving DecidableEq, Repr

/-- The message string of each thrown `Error` (the message of a low-level
connection error is platform-supplied and not modelled). -/
def errorMessage : ClientError → Option JStr
  | .unsupportedCountry c => some (("Country ".toList) ++ c ++ (" not supported".toList))
  | .noHealthy c => some (("No healthy workers available for ".toList) ++ c)
  | .httpError code body => some (("HTTP ".toList) ++ natDigits code ++ (": ".toList) ++ body)
  | .invalidResponseFormat => some ("Invalid response format".toList)
  | .connectionError => none

/-- `getBestWorker(country)`: throws `Country ... not supported` for an
unconfigured region; otherwise probes every worker, keeps the healthy results,
sorts them by latency (stable), and returns the first, throwing
`No healthy workers available` when none is healthy. -/
def getBestWorker (cfg : Config) (env : ProbeEnv) (country : JStr) :
    Except ClientError ProbeResult :=
  match findRegion cfg country with
  | none => .error (.unsupportedCountry country)
  | some region =>
      match sortByLatency (healthyChecks env region) with
      | [] => .error (.noHealthy country)
      | best :: _ => .ok best

/-! ## Connection manager state machine -/

/-- `this.currentSession`. -/
structure Session where
  country : JStr
  worker : ProbeResult
  sessionId : JStr
  connectedAt : Nat
  deriving DecidableEq, Repr

/-- The mutable fields of `PseudoVPNClient`.  `refreshTimer` is the absolute
fire time of the pending `setTimeout`, `none` when no refresh is pending. -/
structure ClientState where
  currentSession : Option Session := none
  sessionToken : Option JStr := none
  tokenExpiry : Option Nat := none
  refreshTimer : Option Int := none
  deriving DecidableEq, Repr

/-- What the network does for the `/connect` handshake request. -/
inductive HandshakeEvent where
  | connError
  | response (statusCode : Nat) (body : JStr)
  deriving DecidableEq, Repr

/-- The full environment of one client operation. -/
structure Env where
  now : Nat
  sessionId : JStr
  secret : JStr
  hmac : JStr → JStr → List Nat
  probe : JStr → NetEvent
  handshake : JStr → HandshakeEvent
  refreshThrows : Bool := false

/-- Probe part of the environment. -/
def Env.probeEnv (e : Env) : ProbeEnv := { probe := e.probe }

/-- Token-generation part of the environment. -/
def Env.genEnv (e : Env) : GenEnv :=
  { now := e.now, sessionId := e.sessionId, secret := e.secret, hmac := e.hmac }

/-- Observable effects of one operation: probe requests issued, handshake
requests issued, `connect` invocations, and notifications surfaced to
observers (the source surfaces none). -/
structure Trace where
  probed : List JStr := []
  handshakes : List JStr := []
  connectCalls : List JStr := []
  notifications : List JStr := []
  deriving DecidableEq, Repr

/-- `establishConnection`: resolves with the parsed body on HTTP 200, rejects
with `Invalid response format` on an unparseable 200 body, with
`HTTP <status>: <body>` on any other status, and with the network error on a
request error. -/
def establishConnection (ev : HandshakeEvent) : Except ClientError JFlat :=
  match ev with
  | .connError => .error .connectionError
  | .response code body =>
      if code = 200 then
        match parseJFlat body with
        | some j => .ok j
        | none => .error .invalidResponseFormat
      else .error (.httpError code body)

/-- `scheduleTokenRefresh()`: clears any pending timer, computes
`tokenExpiry - Date.now() - refreshBuffer*1000` and arms the timer for that
delay only when it is positive; otherwise it returns silently with no timer
armed and no error (a `null` expiry makes the JS delay `NaN`, which also fails
the `> 0` test). -/
def scheduleTokenRefresh (cfg : Config) (now : Nat) (st : ClientState) : ClientState :=
  let st1 := { st with refreshTimer := none }
  match st1.tokenExpiry with
  | none => st1
  | some expiry =>
      let refreshTime : Int := (expiry : Int) - (now : Int) - (cfg.auth.refreshBuffer : Int) * 1000
      if refreshTime > 0 then { st1 with refreshTimer := some ((now : Int) + refreshTime) }
      else st1

/-- `connect(country)`: select the best worker (probing every configured
worker of the region), store the freshly minted token and expiry, perform the
handshake, and only then store the session and arm the refresh timer.  Every
error is rethrown to the caller; the token fields written before the handshake
are not rolled back on failure. -/
def connect (cfg : Config) (env : Env) (st : ClientState) (country : JStr) :
    Except ClientError JFlat × ClientState × Trace :=
  match findRegion cfg country with
  | none =>
      (.error (.unsupportedCountry country), st, { connectCalls := [country] })
  | some region =>
      match getBestWorker cfg env.probeEnv country with
      | .error e =>
          (.error e, st, { connectCalls := [country], probed := region.workers })
      | .ok worker =>
          let sessionInfo := generateSessionToken cfg.auth env.genEnv country worker.url
          let st1 := { st with sessionToken := some sessionInfo.token,
                               tokenExpiry := some sessionInfo.payload.expires }
          let tr : Trace :=
            { connectCalls := [country], probed := region.workers,
              handshakes := [worker.url] }
          match establishConnection (env.handshake worker.url) with
          | .error e => (.error e, st1, tr)
          | .ok ack =>
              let sess : Session :=
                { country := country, worker := worker,
                  sessionId := sessionInfo.payload.sessionId, connectedAt := env.now }
              let st2 := { st1 with currentSession := some sess }
              (.ok ack, scheduleTokenRefresh cfg env.now st2, tr)

/-- `refreshToken()`: a no-op without a session; otherwise mints a new token
for the same region and worker (no re-handshake), stores it, and re-arms the
refresh timer. -/
def refreshToken (cfg : Config) (env : Env) (st : ClientState) : ClientState :=
  match st.currentSession with
  | none => st
  | some s =>
      let sessionInfo := generateSessionToken cfg.auth env.genEnv s.country s.worker.url
      scheduleTokenRefresh cfg env.now
        { st with sessionToken := some sessionInfo.token,
                  tokenExpiry := some sessionInfo.payload.expires }

/-- The refresh timer callback: `try { refreshToken() } catch { if
(currentSession) connect(currentSession.country) }`.  `refreshThrows` injects
the only possible failure of the client-side mint (a crypto exception); when
the recovery `connect` itself fails, its rejection escapes the callback
unhandled — nothing is torn down and nothing is notified. -/
def onRefreshTimerFired (cfg : Config) (env : Env) (st : ClientState) :
    Except ClientError Unit × ClientState × Trace :=
  let st0 := { st with refreshTimer := none }
  if env.refreshThrows then
    match st0.currentSession with
    | some s =>
        match connect cfg env st0 s.country with
        | (.error e, st', tr) => (.error e, st', tr)
        | (.ok _, st', tr) => (.ok (), st', tr)
    | none => (.ok (), st0, {})
  else
    (.ok (), refreshToken cfg env st0, {})

/-- `disconnect()`: cancel any pending refresh timer; the session and token
fields are cleared only when a session is present, so a stale token left by a
failed connect survives a disconnect. -/
def disconnect (st : ClientState) : ClientState :=
  let st1 := { st with refreshTimer := none }
  match st1.currentSession with
  | some _ => { st1 with currentSession := none, sessionToken := none, tokenExpiry := none }
  | none => st1

/-- Decidable equality of `Except` values, used to evaluate the model at
concrete inputs. -/
instance {ε α : Type} [DecidableEq ε] [DecidableEq α] : DecidableEq (Except ε α) :=
  fun a b =>
    match a, b with
    | .error e, .error e' =>
        if h : e = e' then isTrue (by rw [h]) else isFalse (by simp [h])
    | .ok x, .ok y =>
        if h : x = y then isTrue (by rw [h]) else isFalse (by simp [h])
    | .error _, .ok _ => isFalse (by simp)
    | .ok _, .error _ => isFalse (by simp)

/-! ## Specification-side definitions and concrete fixtures -/

/-- Specification-side selection function: the first element of the list whose
latency is minimal (spec 4.2: lowest latency, ties to the earliest-configured
endpoint). -/
def firstLowestLatency : List ProbeResult → Option ProbeResult
  | [] => none
  | x :: xs =>
      match firstLowestLatency xs with
      | none => some x
      | some m => if x.latency ≤ m.latency then some x else some m

/-- The list does not start with a decimal digit (boundary condition for
number parsing). -/
def headNotDigit : List Char → Bool
  | [] => true
  | c :: _ => !isDigitChar c

/-- Fixture: three worker URLs of the `US` test region. -/
def w1url : JStr := ("https://pseudovpn-us-east.hakzeemirror.workers.dev".toList)

/-- Fixture: second worker URL. -/
def w2url : JStr := ("https://pseudovpn-us-backup.deno.dev".toList)

/-- Fixture: third worker URL. -/
def w3url : JStr := ("https://pseudovpn-us-third.example.dev".toList)

/-- Fixture: the `US` region code. -/
def usStr : JStr := ("US".toList)

/-- Fixture: the `US` region with three configured workers. -/
def usRegion : RegionCfg :=
  { name := ("United States".toList), workers := [w1url, w2url, w3url] }

/-- Fixture: a configuration with the default auth and health settings. -/
def testConfig : Config :=
  { regions := [(usStr, usRegion)],
    auth := { tokenDuration := 300, refreshBuffer := 60 },
    health := { checkInterval := 30000, timeout := 5000 } }

/-- Fixture: the parsed body of a healthy `/health` response. -/
def healthyBodyJson : JFlat := [(("status".toList), .str ("healthy".toList))]

/-- Fixture: a healthy `/health` response body. -/
def healthyBody : JStr := stringifyFlat healthyBodyJson

/-- Fixture: a `/connect` acknowledgement body. -/
def ackBody : JStr :=
  stringifyFlat
    [(("success".toList), .bool true),
     (("ip".toList), .str ("93.184.216.34".toList)),
     (("country".toList), .str ("United States".toList))]

/-- Fixture: a session UUID. -/
def uuidStr : JStr := ("123e4567-e89b-12d3-a456-426614174000".toList)

/-- Fixture probe outcomes: `w1` never answers, `w2` answers healthy after
40 ms, `w3` answers healthy after 120 ms. -/
def probeScenario : JStr → NetEvent := fun w =>
  if w = w2url then .response 40 200 healthyBody
  else if w = w3url then .response 120 200 healthyBody
  else .silent

/-- Fixture environment for a fully successful connect. -/
def envOk : Env :=
  { now := 0, sessionId := uuidStr, secret := ("0a1b".toList),
    hmac := fun _ _ => [1, 2, 3], probe := probeScenario,
    handshake := fun _ => .response 200 ackBody }

/-- Fixture environment in which every probe times out. -/
def envAllDown : Env := { envOk with probe := fun _ => .silent }

/-- Fixture environment in which the handshake answers HTTP 500. -/
def env500 : Env := { envOk with handshake := fun _ => .response 500 ("oops".toList) }

/-- Fixture environment for a failing refresh whose recovery reconnect also
fails (all probes down). -/
def envRefreshFail : Env := { envAllDown with refreshThrows := true }

/-- Fixture: the probe result `getBestWorker` must select in the scenario. -/
def w2probe : ProbeResult :=
  { url := w2url, status := .healthy, latency := 40, data := some healthyBodyJson }

/-- Fixture: a connected session at `w2`. -/
def sessC4 : Session :=
  { country := usStr, worker := w2probe, sessionId := uuidStr, connectedAt := 0 }

/-- Fixture: client state holding the session of `sessC4`. -/
def stC4 : ClientState :=
  { currentSession := some sessC4, sessionToken := some ("tok".toList),
    tokenExpiry := some 300000, refreshTimer := none }

/-- Fixture: a configuration whose refresh buffer equals the token duration
(`refreshBuffer >= tokenDuration`). -/
def cfgC5 : Config :=
  { regions := [(usStr, usRegion)],
    auth := { tokenDuration := 300, refreshBuffer := 300 },
    health := { checkInterval := 30000, timeout := 5000 } }

/-- Fixture: state holding a token minted at time 0 under `cfgC5`. -/
def stC5 : ClientState :=
  { currentSession := some sessC4, sessionToken := some ("tok".toList),
    tokenExpiry := some 300000, refreshTimer := none }

/-- Fixture: a worker id containing `?` placed so that the base64url encoding
of the token payload contains a character outside the standard base64
alphabet. -/
def badWorkerId : JStr := ("a?x".toList)

/-- Fixture: the token generated for the scenario of claim C7 (minted at time
0, expiring at 300000). -/
def tokC7 : SessionInfo := generateSessionToken testConfig.auth envOk.genEnv usStr w2url

/-- Fixture: the JSON object of `tokC7`'s payload. -/
def tokC7payload : JFlat := payloadJson tokC7.payload

/-- Fixture: first segment of `tokC7`. -/
def tokC7seg0 : JStr := base64urlEncode (strBytes jwtHeaderJson)

/-- Fixture: second (payload) segment of `tokC7`. -/
def tokC7seg1 : JStr := base64urlEncode (strBytes (stringifyFlat tokC7payload))

/-- Fixture: third (signature) segment of `tokC7`. -/
def tokC7seg2 : JStr :=
  base64urlEncode (envOk.hmac envOk.secret (tokC7seg0 ++ '.' :: tokC7seg1))

/-! ## Selection lemmas -/

/-- Head of a stable insertion: the smaller of the inserted element and the
previous head, preferring the previous head on ties. -/
theorem insertByLatency_head (x : ProbeResult) (l : List ProbeResult) :
    (insertByLatency x l).head? =
      match l.head? with
      | none => some x
      | some y => if x.latency ≤ y.latency then some x else some y := by
  cases l with
  | nil => rfl
  | cons y ys =>
      simp only [insertByLatency, List.head?_cons]
      by_cases h : x.latency ≤ y.latency <;> simp [h]

/-- The head of the stable sort is the first element of minimal latency. -/
theorem sortByLatency_head (l : List ProbeResult) :
    (sortByLatency l).head? = firstLowestLatency l := by
  induction l with
  | nil => rfl
  | cons x xs ih =>
      simp only [sortByLatency, firstLowestLatency, insertByLatency_head, ih]

/-- A nonempty list has a first minimal element. -/
theorem firstLowestLatency_ne_none (x : ProbeResult) (xs : List ProbeResult) :
    firstLowestLatency (x :: xs) ≠ none := by
  simp only [firstLowestLatency]
  cases firstLowestLatency xs with
  | none => simp
  | some m => by_cases h : x.latency ≤ m.latency <;> simp [h]

/-- Only the empty list has no first minimal element. -/
theorem firstLowestLatency_none : ∀ {l : List ProbeResult}, firstLowestLatency l = none → l = []
  | [], _ => rfl
  | x :: xs, h => absurd h (firstLowestLatency_ne_none x xs)

/-- The first minimal element is a member, is minimal, and is preceded only by
elements of strictly larger latency. -/
theorem firstLowestLatency_spec :
    ∀ (l : List ProbeResult) (m : ProbeResult), firstLowestLatency l = some m →
      m ∈ l ∧ (∀ y ∈ l, m.latency ≤ y.latency) ∧
        ∃ pre post, l = pre ++ m :: post ∧ ∀ y ∈ pre, m.latency < y.latency := by
  intro l
  induction l with
  | nil => intro m h; simp [firstLowestLatency] at h
  | cons x xs ih =>
      intro m h
      simp only [firstLowestLatency] at h
      split at h
      · next hf =>
          simp only [Option.some.injEq] at h
          subst h
          have hxs : xs = [] := firstLowestLatency_none hf
          subst hxs
          exact ⟨by simp, by simp, [], [], rfl, by simp⟩
      · next m' hf =>
          obtain ⟨hmem, hmin, pre, post, hdec, hpre⟩ := ih m' hf
          by_cases hx : x.latency ≤ m'.latency
          · rw [if_pos hx] at h
            simp only [Option.some.injEq] at h
            subst h
            refine ⟨by simp, ?_, [], xs, rfl, by simp⟩
            intro y hy
            rcases List.mem_cons.mp hy with hy | hy
            · subst hy; exact Nat.le_refl _
            · exact Nat.le_trans hx (hmin y hy)
          · rw [if_neg hx] at h
            simp only [Option.some.injEq] at h
            subst h
            have hlt : m'.latency < x.latency := Nat.lt_of_not_le hx
            refine ⟨List.mem_cons_of_mem x hmem, ?_, x :: pre, post, by rw [hdec]; simp, ?_⟩
            · intro y hy
              rcases List.mem_cons.mp hy with hy | hy
              · subst hy; exact Nat.le_of_lt hlt
              · exact hmin y hy
            · intro y hy
              rcases List.mem_cons.mp hy with hy | hy
              · subst hy; exact hlt
              · exact hpre y hy

/-- Members of the healthy filter are healthy. -/
theorem mem_healthyChecks_status {env : ProbeEnv} {region : RegionCfg} {r : ProbeResult}
    (h : r ∈ healthyChecks env region) : r.status = ProbeStatus.healthy := by
  have h2 := (List.mem_filter.mp h).2
  simpa using h2

/-- C1: for a configured region with at least one healthy probe result,
`getBestWorker` returns exactly the healthy result of lowest latency, and on
latency ties the one whose endpoint appears earliest in the configured worker
list (the healthy results are filtered and stably sorted in configuration
order, so the selected element is the first one attaining the minimal
latency: it is preceded in the filtered list only by strictly slower
results). -/
theorem getBestWorker_selects_first_lowest_latency (cfg : Config) (env : ProbeEnv)
    (country : JStr) (region : RegionCfg) (m : ProbeResult)
    (hr : findRegion cfg country = some region)
    (hm : firstLowestLatency (healthyChecks env region) = some m) :
    getBestWorker cfg env country = .ok m ∧ m.status = ProbeStatus.healthy ∧
      m ∈ healthyChecks env region ∧
      (∀ r ∈ healthyChecks env region, m.latency ≤ r.latency) ∧
      ∃ pre post, healthyChecks env region = pre ++ m :: post ∧
        ∀ r ∈ pre, m.latency < r.latency := by
  obtain ⟨hmem, hmin, pre, post, hdec, hpre⟩ := firstLowestLatency_spec _ m hm
  refine ⟨?_, mem_healthyChecks_status hmem, hmem, hmin, pre, post, hdec, hpre⟩
  have hred : getBestWorker cfg env country =
      match sortByLatency (healthyChecks env region) with
      | [] => .error (.noHealthy country)
      | best :: _ => .ok best := by
    unfold getBestWorker
    rw [hr]
  rcases hs : sortByLatency (healthyChecks env region) with _ | ⟨b, t⟩
  · have hh := sortByLatency_head (healthyChecks env region)
    rw [hs, hm] at hh
    simp at hh
  · have hh := sortByLatency_head (healthyChecks env region)
    rw [hs, hm] at hh
    simp only [List.head?_cons, Option.some.injEq] at hh
    rw [hred, hs, hh]

/-- Witness for C1, at the spec scenario: region `US` with `w1` timing out,
`w2` healthy at 40 ms and `w3` healthy at 120 ms selects `w2`. -/
theorem getBestWorker_selects_first_lowest_latency_witness :
    getBestWorker testConfig envOk.probeEnv usStr = .ok w2probe ∧ w2probe.url = w2url :=
  ⟨(getBestWorker_selects_first_lowest_latency testConfig envOk.probeEnv usStr usRegion
      w2probe (by decide) (by decide)).1, by decide⟩

/-! ## Connect-level helper lemmas -/

/-- The payload record built by `generateSessionToken`. -/
theorem generate_payload_fields (auth : AuthCfg) (genv : GenEnv) (country workerId : JStr) :
    (generateSessionToken auth genv country workerId).payload =
      { country := country, workerId := workerId, sessionId := genv.sessionId,
        issued := genv.now, expires := genv.now + auth.tokenDuration * 1000 } := rfl

/-- Every `connect` call records itself once and surfaces no notification. -/
theorem connect_trace (cfg : Config) (env : Env) (st : ClientState) (country : JStr) :
    (connect cfg env st country).2.2.connectCalls = [country] ∧
    (connect cfg env st country).2.2.notifications = [] := by
  cases hr : findRegion cfg country with
  | none => simp [connect, hr]
  | some region =>
      cases hw : getBestWorker cfg env.probeEnv country with
      | error e => simp [connect, hr, hw]
      | ok worker =>
          cases hh : establishConnection (env.handshake worker.url) with
          | error e => simp [connect, hr, hw, hh]
          | ok ack => simp [connect, hr, hw, hh]

/-- A failed `connect` never touches `currentSession` or the refresh timer
(only the token fields may have been overwritten). -/
theorem connect_error_state (cfg : Config) (env : Env) (st : ClientState) (country : JStr)
    (e : ClientError) (h : (connect cfg env st country).1 = .error e) :
    (connect cfg env st country).2.1.currentSession = st.currentSession ∧
    (connect cfg env st country).2.1.refreshTimer = st.refreshTimer := by
  cases hr : findRegion cfg country with
  | none => simp [connect, hr]
  | some region =>
      cases hw : getBestWorker cfg env.probeEnv country with
      | error e0 => simp [connect, hr, hw]
      | ok worker =>
          cases hh : establishConnection (env.handshake worker.url) with
          | error e0 => simp [connect, hr, hw, hh]
          | ok ack => exfalso; simp [connect, hr, hw, hh] at h

/-- `scheduleTokenRefresh` with a positive delay arms the timer for the
expiry minus the refresh buffer. -/
theorem scheduleTokenRefresh_positive (cfg : Config) (now : Nat) (st : ClientState)
    (expiry : Nat) (he : st.tokenExpiry = some expiry)
    (hpos : 0 < (expiry : Int) - (now : Int) - (cfg.auth.refreshBuffer : Int) * 1000) :
    scheduleTokenRefresh cfg now st =
      { st with refreshTimer := some ((expiry : Int) - (cfg.auth.refreshBuffer : Int) * 1000) } := by
  simp only [scheduleTokenRefresh]
  rw [show ({ st with refreshTimer := none } : ClientState).tokenExpiry = some expiry from he]
  dsimp only
  rw [if_pos (show (expiry : Int) - (now : Int) - (cfg.auth.refreshBuffer : Int) * 1000 > 0 from hpos)]
  rw [show (now : Int) + ((expiry : Int) - (now : Int) - (cfg.auth.refreshBuffer : Int) * 1000) =
      (expiry : Int) - (cfg.auth.refreshBuffer : Int) * 1000 by ring]

/-- `scheduleTokenRefresh` with a nonpositive delay returns silently with no
timer armed. -/
theorem scheduleTokenRefresh_nonpositive (cfg : Config) (now : Nat)
    (st : ClientState) (expiry : Nat) (he : st.tokenExpiry = some expiry)
    (hw : (expiry : Int) - (now : Int) - (cfg.auth.refreshBuffer : Int) * 1000 ≤ 0) :
    scheduleTokenRefresh cfg now st = { st with refreshTimer := none } := by
  simp only [scheduleTokenRefresh]
  rw [show ({ st with refreshTimer := none } : ClientState).tokenExpiry = some expiry from he]
  dsimp only
  rw [if_neg (by omega : ¬ ((expiry : Int) - (now : Int) - (cfg.auth.refreshBuffer : Int) * 1000 > 0))]

/-- C2: for a configured region with no healthy probe result, `getBestWorker`
fails with the no-healthy-workers error, and this is the only error it can
raise for a configured region; `connect` then rethrows that error, performs no
handshake (the trace records only the probes), and leaves the client state —
`currentSession`, `sessionToken`, `tokenExpiry` — exactly unchanged
(Disconnected stays Disconnected). -/
theorem noHealthy_only_error_and_connect_unchanged (cfg : Config) (env : Env)
    (st : ClientState) (country : JStr) (region : RegionCfg)
    (hr : findRegion cfg country = some region)
    (hh : healthyChecks env.probeEnv region = []) :
    getBestWorker cfg env.probeEnv country = .error (.noHealthy country) ∧
    (∀ (env' : ProbeEnv) (e : ClientError),
        getBestWorker cfg env' country = .error e → e = .noHealthy country) ∧
    connect cfg env st country =
      (.error (.noHealthy country), st,
        { connectCalls := [country], probed := region.workers }) := by
  have h1 : getBestWorker cfg env.probeEnv country = .error (.noHealthy country) := by
    simp [getBestWorker, hr, hh, sortByLatency]
  refine ⟨h1, ?_, ?_⟩
  · intro env' e h
    simp only [getBestWorker, hr] at h
    rcases hs : sortByLatency (healthyChecks env' region) with _ | ⟨b, t⟩ <;> rw [hs] at h
    · simp only [Except.error.injEq] at h
      exact h.symm
    · simp at h
  · simp [connect, hr, h1]

/-- Witness for C2: the all-probes-down scenario. -/
theorem noHealthy_only_error_and_connect_unchanged_witness :
    getBestWorker testConfig envAllDown.probeEnv usStr = .error (.noHealthy usStr) ∧
    connect testConfig envAllDown {} usStr =
      (.error (.noHealthy usStr), ({} : ClientState),
        { connectCalls := [usStr], probed := usRegion.workers }) := by
  obtain ⟨h1, _, h3⟩ :=
    noHealthy_only_error_and_connect_unchanged testConfig envAllDown {} usStr usRegion
      (by decide) (by decide)
  exact ⟨h1, h3⟩

/-- C3 (amended): when selection succeeds and the handshake answers a non-200
status, `connect` rethrows `HTTP <status>: <body>` to the caller, and
`currentSession` and the refresh timer are unchanged; however the
`sessionToken` and `tokenExpiry` fields written before the handshake are NOT
rolled back: they keep the values minted during the failed attempt, so the
state is not restored exactly as it was before the call. -/
theorem connect_handshake_failure_keeps_token_state (cfg : Config) (env : Env)
    (st : ClientState) (country : JStr) (worker : ProbeResult) (code : Nat) (body : JStr)
    (hw : getBestWorker cfg env.probeEnv country = .ok worker)
    (hh : env.handshake worker.url = .response code body)
    (hc : code ≠ 200) :
    (connect cfg env st country).1 = .error (.httpError code body) ∧
    (connect cfg env st country).2.1.currentSession = st.currentSession ∧
    (connect cfg env st country).2.1.refreshTimer = st.refreshTimer ∧
    (connect cfg env st country).2.1.sessionToken =
      some (generateSessionToken cfg.auth env.genEnv country worker.url).token ∧
    (connect cfg env st country).2.1.tokenExpiry =
      some (generateSessionToken cfg.auth env.genEnv country worker.url).payload.expires := by
  have hreg : ∃ region, findRegion cfg country = some region := by
    cases hr : findRegion cfg country with
    | none => exfalso; simp [getBestWorker, hr] at hw
    | some r => exact ⟨r, rfl⟩
  obtain ⟨region, hr⟩ := hreg
  have hest : establishConnection (env.handshake worker.url) = .error (.httpError code body) := by
    rw [hh]
    simp only [establishConnection]
    rw [if_neg hc]
  simp [connect, hr, hw, hest]

/-- Counterexample for C3 as stated: with an initially disconnected state, a
connect whose handshake answers HTTP 500 fails, but `sessionToken` is left
set (not `none` as before the call) — the state does not return exactly to
its pre-call value. -/
theorem connect_handshake_failure_not_atomic :
    (connect testConfig env500 {} usStr).1 = .error (.httpError 500 ("oops".toList)) ∧
    (connect testConfig env500 {} usStr).2.1.sessionToken ≠
      (({} : ClientState)).sessionToken ∧
    (connect testConfig env500 {} usStr).2.1.tokenExpiry ≠
      (({} : ClientState)).tokenExpiry := by decide

/-- Witness for C3 (amended theorem) at the concrete HTTP-500 scenario. -/
theorem connect_handshake_failure_keeps_token_state_witness :
    (connect testConfig env500 {} usStr).1 = .error (.httpError 500 ("oops".toList)) ∧
    (connect testConfig env500 {} usStr).2.1.currentSession = (({} : ClientState)).currentSession ∧
    (connect testConfig env500 {} usStr).2.1.sessionToken =
      some (generateSessionToken testConfig.auth env500.genEnv usStr w2probe.url).token := by
  obtain ⟨h1, h2, _, h4, _⟩ :=
    connect_handshake_failure_keeps_token_state testConfig env500 {} usStr w2probe 500
      ("oops".toList) (by decide) (by decide) (by decide)
  exact ⟨h1, h2, h4⟩

/-- C4 (amended): when the refresh-timer callback's refresh fails, the manager
attempts exactly one `connect(currentSession.country)` as recovery; if that
reconnect also fails, the error escapes the timer callback unhandled, the
Session is NOT torn down (`currentSession` keeps its stale value), no
notification of any kind is surfaced (the code has no `SessionLost`
mechanism), and no new refresh timer is armed, so the fallback does not
loop. -/
theorem refresh_failure_single_reconnect_no_teardown (cfg : Config) (env : Env)
    (st : ClientState) (s : Session) (e : ClientError)
    (hs : st.currentSession = some s) (hthrow : env.refreshThrows = true)
    (hfail : (connect cfg env { st with refreshTimer := none } s.country).1 = .error e) :
    (onRefreshTimerFired cfg env st).2.2.connectCalls = [s.country] ∧
    (onRefreshTimerFired cfg env st).1 = .error e ∧
    (onRefreshTimerFired cfg env st).2.1.currentSession = some s ∧
    (onRefreshTimerFired cfg env st).2.2.notifications = [] ∧
    (onRefreshTimerFired cfg env st).2.1.refreshTimer = none := by
  have hs0 : ({ st with refreshTimer := none } : ClientState).currentSession = some s := hs
  have ht := connect_trace cfg env { st with refreshTimer := none } s.country
  have hes := connect_error_state cfg env { st with refreshTimer := none } s.country e hfail
  rcases hc : connect cfg env { st with refreshTimer := none } s.country with ⟨r, st', tr⟩
  rw [hc] at ht hes hfail
  dsimp only at ht hes hfail
  subst hfail
  have hcs := hes.1.trans hs
  rw [hs] at hc
  have hred : onRefreshTimerFired cfg env st = (.error e, st', tr) := by
    simp only [onRefreshTimerFired, hthrow, if_true, hs, hc]
  rw [hred]
  exact ⟨ht.1, rfl, hcs, ht.2, hes.2⟩

/-- Counterexample for C4 as stated: refresh fails, the recovery reconnect
fails (no healthy workers), yet the session is not cleared and no
notification is surfaced to observers. -/
theorem refresh_failure_no_teardown_counterexample :
    (onRefreshTimerFired testConfig envRefreshFail stC4).1 = .error (.noHealthy usStr) ∧
    (onRefreshTimerFired testConfig envRefreshFail stC4).2.1.currentSession = some sessC4 ∧
    (onRefreshTimerFired testConfig envRefreshFail stC4).2.2.notifications = [] := by decide

/-- Witness for C4 (amended theorem) at the concrete all-probes-down
scenario. -/
theorem refresh_failure_single_reconnect_no_teardown_witness :
    (onRefreshTimerFired testConfig envRefreshFail stC4).2.2.connectCalls = [sessC4.country] ∧
    (onRefreshTimerFired testConfig envRefreshFail stC4).1 = .error (.noHealthy usStr) ∧
    (onRefreshTimerFired testConfig envRefreshFail stC4).2.1.currentSession = some sessC4 ∧
    (onRefreshTimerFired testConfig envRefreshFail stC4).2.2.notifications = [] ∧
    (onRefreshTimerFired testConfig envRefreshFail stC4).2.1.refreshTimer = none := by
  have h := refresh_failure_single_reconnect_no_teardown testConfig envRefreshFail stC4 sessC4
    (.noHealthy usStr) (by decide) (by decide) (by decide)
  exact h

/-- C5: when the computed refresh delay `tokenExpiry - now - refreshBuffer*1000`
is nonpositive — in particular whenever the refresh buffer is at least the
token duration — `scheduleTokenRefresh` silently arms no timer and raises no
error at all: the function is total, returns the otherwise-unchanged state,
and the model's error type has no `InvalidScheduleWindow` (nothing of that
name exists in the code), contradicting the claimed fail-fast behaviour. -/
theorem scheduleTokenRefresh_nonpositive_silently_skips (cfg : Config) (now : Nat)
    (st : ClientState) (expiry : Nat) (he : st.tokenExpiry = some expiry)
    (hw : (expiry : Int) - (now : Int) - (cfg.auth.refreshBuffer : Int) * 1000 ≤ 0) :
    scheduleTokenRefresh cfg now st = { st with refreshTimer := none } :=
  scheduleTokenRefresh_nonpositive cfg now st expiry he hw

/-- Witness for C5 at the failing input: token duration 300 s, refresh buffer
300 s, token minted at t = 0 (expiry 300000 ms), schedule at t = 0. -/
theorem scheduleTokenRefresh_nonpositive_silently_skips_witness :
    scheduleTokenRefresh cfgC5 0 stC5 = { stC5 with refreshTimer := none } :=
  scheduleTokenRefresh_nonpositive_silently_skips cfgC5 0 stC5 300000 (by decide) (by decide)

/-- `scheduleTokenRefresh` does not change the token expiry field. -/
theorem scheduleTokenRefresh_tokenExpiry (cfg : Config) (now : Nat) (st : ClientState) :
    (scheduleTokenRefresh cfg now st).tokenExpiry = st.tokenExpiry := by
  simp only [scheduleTokenRefresh]
  rcases hx : st.tokenExpiry with _ | e
  · rfl
  · dsimp only
    split <;> rfl

/-- `scheduleTokenRefresh` does not change the current session. -/
theorem scheduleTokenRefresh_currentSession (cfg : Config) (now : Nat) (st : ClientState) :
    (scheduleTokenRefresh cfg now st).currentSession = st.currentSession := by
  simp only [scheduleTokenRefresh]
  rcases hx : st.tokenExpiry with _ | e
  · rfl
  · dsimp only
    split <;> rfl

/-- The timer armed by `scheduleTokenRefresh`: the expiry minus the buffer
when the delay is positive, nothing otherwise. -/
theorem scheduleTokenRefresh_refreshTimer_of_expiry (cfg : Config) (now : Nat)
    (st : ClientState) (expiry : Nat) (he : st.tokenExpiry = some expiry) :
    (scheduleTokenRefresh cfg now st).refreshTimer =
      if 0 < (expiry : Int) - (now : Int) - (cfg.auth.refreshBuffer : Int) * 1000
      then some ((expiry : Int) - (cfg.auth.refreshBuffer : Int) * 1000) else none := by
  by_cases hpos : 0 < (expiry : Int) - (now : Int) - (cfg.auth.refreshBuffer : Int) * 1000
  · rw [scheduleTokenRefresh_positive cfg now st expiry he hpos, if_pos hpos]
  · rw [scheduleTokenRefresh_nonpositive cfg now st expiry he (by omega), if_neg hpos]

/-- C9: every successful `connect` arms the refresh timer to fire exactly at
the token expiry minus the configured refresh buffer (`expires -
refreshBuffer*1000`), where the expiry is `now + tokenDuration*1000`; when the
buffer is positive this differs from the expiry itself. -/
theorem connect_success_arms_refresh_timer (cfg : Config) (env : Env) (st : ClientState)
    (country : JStr) (hd : cfg.auth.refreshBuffer < cfg.auth.tokenDuration)
    (hok : (connect cfg env st country).1.isOk = true) :
    ∃ e : Nat, (connect cfg env st country).2.1.tokenExpiry = some e ∧
      e = env.now + cfg.auth.tokenDuration * 1000 ∧
      (connect cfg env st country).2.1.refreshTimer =
        some ((e : Int) - (cfg.auth.refreshBuffer : Int) * 1000) ∧
      (0 < cfg.auth.refreshBuffer →
        (connect cfg env st country).2.1.refreshTimer ≠ some ((e : Int))) := by
  cases hr : findRegion cfg country with
  | none => exfalso; simp [connect, hr, Except.isOk, Except.toBool] at hok
  | some region =>
      cases hw : getBestWorker cfg env.probeEnv country with
      | error e0 => exfalso; simp [connect, hr, hw, Except.isOk, Except.toBool] at hok
      | ok worker =>
          cases hhs : establishConnection (env.handshake worker.url) with
          | error e0 => exfalso; simp [connect, hr, hw, hhs, Except.isOk, Except.toBool] at hok
          | ok ack =>
              have hconn : (connect cfg env st country).2.1 =
                  scheduleTokenRefresh cfg env.now
                    { st with
                      sessionToken := some (generateSessionToken cfg.auth env.genEnv country worker.url).token,
                      tokenExpiry := some (generateSessionToken cfg.auth env.genEnv country worker.url).payload.expires,
                      currentSession := some { country := country, worker := worker, sessionId := (generateSessionToken cfg.auth env.genEnv country worker.url).payload.sessionId, connectedAt := env.now } } := by
                simp [connect, hr, hw, hhs]
              have hexp : (generateSessionToken cfg.auth env.genEnv country worker.url).payload.expires =
                  env.now + cfg.auth.tokenDuration * 1000 := rfl
              refine ⟨env.now + cfg.auth.tokenDuration * 1000, ?_, rfl, ?_, ?_⟩
              · rw [hconn, scheduleTokenRefresh_tokenExpiry]
                dsimp only
                rw [hexp]
              · rw [hconn, scheduleTokenRefresh_refreshTimer_of_expiry cfg env.now _
                    (env.now + cfg.auth.tokenDuration * 1000) (by dsimp only; rw [hexp])]
                rw [if_pos (by push_cast; omega)]
              · intro hb hcontra
                rw [hconn, scheduleTokenRefresh_refreshTimer_of_expiry cfg env.now _
                    (env.now + cfg.auth.tokenDuration * 1000) (by dsimp only; rw [hexp])] at hcontra
                rw [if_pos (by push_cast; omega)] at hcontra
                simp only [Option.some.injEq] at hcontra
                omega

/-- Witness for C9 at the spec scenario: token duration 300 s, refresh buffer
60 s, connect at t = 0 arms the timer for t = 240000 ms (240 s), not
t = 300000 ms. -/
theorem connect_success_arms_refresh_timer_witness :
    (∃ e : Nat, (connect testConfig envOk {} usStr).2.1.tokenExpiry = some e ∧
      e = envOk.now + testConfig.auth.tokenDuration * 1000 ∧
      (connect testConfig envOk {} usStr).2.1.refreshTimer =
        some ((e : Int) - (testConfig.auth.refreshBuffer : Int) * 1000) ∧
      (0 < testConfig.auth.refreshBuffer →
        (connect testConfig envOk {} usStr).2.1.refreshTimer ≠ some ((e : Int)))) ∧
    (connect testConfig envOk {} usStr).2.1.refreshTimer = some 240000 :=
  ⟨connect_success_arms_refresh_timer testConfig envOk {} usStr (by decide) (by decide),
   by decide⟩

/-- C10: connecting to a region code absent from the configuration throws the
error whose message is `Country <code> not supported` before any probe or
handshake is issued (the trace records none), leaves the entire client state
unchanged, and this error is distinct from the spec taxonomy's
`NoHealthyEndpoint` and `HandshakeFailed` (`HTTP ...`) errors. -/
theorem connect_unsupported_country (cfg : Config) (env : Env) (st : ClientState)
    (country : JStr) (h : findRegion cfg country = none) :
    connect cfg env st country =
      (.error (.unsupportedCountry country), st, { connectCalls := [country] }) ∧
    errorMessage (.unsupportedCountry country) =
      some (("Country ".toList) ++ country ++ (" not supported".toList)) ∧
    (∀ c, ClientError.unsupportedCountry country ≠ ClientError.noHealthy c) ∧
    (∀ code body, ClientError.unsupportedCountry country ≠ ClientError.httpError code body) := by
  refine ⟨by simp [connect, h], rfl, ?_, ?_⟩
  · intro c hne
    simp at hne
  · intro code body hne
    simp at hne

/-- Witness for C10: the unconfigured region code `ZZ`. -/
theorem connect_unsupported_country_witness :
    connect testConfig envOk {} ("ZZ".toList) =
      (.error (.unsupportedCountry ("ZZ".toList)), ({} : ClientState),
        { connectCalls := [("ZZ".toList)] }) :=
  (connect_unsupported_country testConfig envOk {} ("ZZ".toList) (by decide)).1

/-- C8: `healthCheck` always resolves to a result value — in the model it is a
total function into `ProbeResult`, mirroring that every code path of the
source calls `resolve` and none rejects or throws past the promise boundary —
and the result maps the network behaviour as specified: a 200 response with a
parseable JSON body arriving before the timeout is `healthy` with the measured
latency and the parsed payload attached; any other response status with a
parseable body is `error`; an unparseable body is `invalid`; a connection
error before the timeout is `error` with the measured latency; and a silent
endpoint or any event losing the race against the timeout yields `timeout`
with latency equal to the timeout value. -/
theorem healthCheck_total_mapping (url : JStr) (timeout : Nat) :
    (healthCheck url timeout .silent =
      { url := url, status := .probeTimeout, latency := timeout }) ∧
    (∀ t, t < timeout → healthCheck url timeout (.connError t) =
      { url := url, status := .netfail, latency := t }) ∧
    (∀ t, timeout ≤ t → healthCheck url timeout (.connError t) =
      { url := url, status := .probeTimeout, latency := timeout }) ∧
    (∀ t code body j, t < timeout → parseJFlat body = some j →
      healthCheck url timeout (.response t code body) =
        { url := url, status := if code = 200 then .healthy else .netfail, latency := t, data := some j }) ∧
    (∀ t code body, t < timeout → parseJFlat body = none →
      healthCheck url timeout (.response t code body) =
        { url := url, status := .invalid, latency := t }) ∧
    (∀ t code body, timeout ≤ t → healthCheck url timeout (.response t code body) =
      { url := url, status := .probeTimeout, latency := timeout }) := by
  refine ⟨rfl, ?_, ?_, ?_, ?_, ?_⟩
  · intro t ht
    simp [healthCheck, ht]
  · intro t ht
    simp [healthCheck, Nat.not_lt.mpr ht]
  · intro t code body j ht hp
    simp [healthCheck, ht, hp]
  · intro t code body ht hp
    simp [healthCheck, ht, hp]
  · intro t code body ht
    simp [healthCheck, Nat.not_lt.mpr ht]

/-- Witness for C8: a 200 response with parseable body after 40 ms against a
5000 ms timeout is healthy with latency 40 and the parsed payload. -/
theorem healthCheck_total_mapping_witness :
    healthCheck w2url 5000 (.response 40 200 healthyBody) =
      { url := w2url, status := .healthy, latency := 40, data := some healthyBodyJson } := by
  have h := (healthCheck_total_mapping w2url 5000).2.2.2.1 40 200 healthyBody healthyBodyJson
    (by decide) (by decide)
  simpa using h

/-- Classification of the modelled `validateTokenC` by rejection site.  A token that is not three dot-separated segments (including
the empty token) or whose payload segment is not decodable is rejected as
malformed, and only such tokens are; every decodable three-segment token is
never rejected as malformed — validated after its expiry it fails as
`Expired` — and the result is `Expired` exactly when the JS comparison
`now > payload.expires` holds, `SessionMismatch` exactly when it is not
expired and `payload.sessionId` differs from the expected session id, and the
decoded payload otherwise. -/
theorem validateToken_taxonomy (now : Nat) (token sid : JStr) :
    (validateTokenC now token sid = .error .malformed ↔
      ¬ ∃ p0 p1 p2 payload, splitOnChar '.' token = [p0, p1, p2] ∧
          decodePayloadSegment p1 = some payload) ∧
    (∀ p0 p1 p2 payload, splitOnChar '.' token = [p0, p1, p2] →
        decodePayloadSegment p1 = some payload →
        (validateTokenC now token sid ≠ .error .malformed) ∧
        (validateTokenC now token sid = .error .expired ↔ jsAfterExpiry now payload = true) ∧
        (validateTokenC now token sid = .error .mismatch ↔
          (jsAfterExpiry now payload = false ∧ jsSessionId payload ≠ some sid)) ∧
        (validateTokenC now token sid = .ok payload ↔
          (jsAfterExpiry now payload = false ∧ jsSessionId payload = some sid))) := by
  by_cases ht : token = []
  · subst ht
    constructor
    · have hv : validateTokenC now ([] : JStr) sid = .error .malformed := rfl
      refine iff_of_true hv ?_
      rintro ⟨p0, p1, p2, pl, heq, -⟩
      rw [show splitOnChar '.' ([] : JStr) = [[]] from rfl] at heq
      simp at heq
    · intro p0 p1 p2 payload hsp
      rw [show splitOnChar '.' ([] : JStr) = [[]] from rfl] at hsp
      simp at hsp
  · rcases hsp : splitOnChar '.' token with _ | ⟨a, _ | ⟨b, _ | ⟨c, _ | ⟨d, t⟩⟩⟩⟩
    · have hv : validateTokenC now token sid = .error .malformed := by
        simp [validateTokenC, ht, hsp]
      constructor
      · refine iff_of_true hv ?_
        rintro ⟨p0, p1, p2, pl, heq, -⟩
        simp at heq
      · intro p0 p1 p2 payload heq _
        simp at heq
    · have hv : validateTokenC now token sid = .error .malformed := by
        simp [validateTokenC, ht, hsp]
      constructor
      · refine iff_of_true hv ?_
        rintro ⟨p0, p1, p2, pl, heq, -⟩
        simp at heq
      · intro p0 p1 p2 payload heq _
        simp at heq
    · have hv : validateTokenC now token sid = .error .malformed := by
        simp [validateTokenC, ht, hsp]
      constructor
      · refine iff_of_true hv ?_
        rintro ⟨p0, p1, p2, pl, heq, -⟩
        simp at heq
      · intro p0 p1 p2 payload heq _
        simp at heq
    · rcases hd : decodePayloadSegment b with _ | pl
      · have hv : validateTokenC now token sid = .error .malformed := by
          simp [validateTokenC, ht, hsp, hd]
        constructor
        · refine iff_of_true hv ?_
          rintro ⟨p0, p1, p2, pl, heq, hdec⟩
          obtain ⟨rfl, rfl, rfl, -⟩ : a = p0 ∧ b = p1 ∧ c = p2 ∧ True := by
            simpa using heq
          rw [hd] at hdec
          exact Option.noConfusion hdec
        · intro p0 p1 p2 payload heq hdec
          obtain ⟨rfl, rfl, rfl, -⟩ : a = p0 ∧ b = p1 ∧ c = p2 ∧ True := by
            simpa using heq
          rw [hd] at hdec
          exact Option.noConfusion hdec
      · have hex_mem : ∃ p0 p1 p2 payload, [a, b, c] = [p0, p1, p2] ∧
            decodePayloadSegment p1 = some payload := ⟨a, b, c, pl, rfl, hd⟩
        have hmain : ∀ p0 p1 p2 payload, [a, b, c] = [p0, p1, p2] →
            decodePayloadSegment p1 = some payload →
            (validateTokenC now token sid ≠ .error .malformed) ∧
            (validateTokenC now token sid = .error .expired ↔ jsAfterExpiry now payload = true) ∧
            (validateTokenC now token sid = .error .mismatch ↔
              (jsAfterExpiry now payload = false ∧ jsSessionId payload ≠ some sid)) ∧
            (validateTokenC now token sid = .ok payload ↔
              (jsAfterExpiry now payload = false ∧ jsSessionId payload = some sid)) := by
          intro p0 p1 p2 payload heq hdec
          obtain ⟨rfl, rfl, rfl, -⟩ : a = p0 ∧ b = p1 ∧ c = p2 ∧ True := by
            simpa using heq
          rw [hd] at hdec
          obtain rfl : pl = payload := by simpa using hdec
          cases hex : jsAfterExpiry now pl with
          | true =>
              have hv : validateTokenC now token sid = .error .expired := by
                simp [validateTokenC, ht, hsp, hd, hex]
              refine ⟨by rw [hv]; simp, iff_of_true hv rfl, ?_, ?_⟩
              · refine iff_of_false (by rw [hv]; simp) ?_
                rintro ⟨hfalse, -⟩
                exact Bool.noConfusion hfalse
              · refine iff_of_false (by rw [hv]; simp) ?_
                rintro ⟨hfalse, -⟩
                exact Bool.noConfusion hfalse
          | false =>
              by_cases hmm : jsSessionId pl = some sid
              · have hv : validateTokenC now token sid = .ok pl := by
                  simp [validateTokenC, ht, hsp, hd, hex, hmm]
                refine ⟨by rw [hv]; simp, ?_, ?_, iff_of_true hv ⟨rfl, hmm⟩⟩
                · refine iff_of_false (by rw [hv]; simp) ?_
                  intro hfalse
                  exact Bool.noConfusion hfalse
                · refine iff_of_false (by rw [hv]; simp) ?_
                  rintro ⟨-, hne⟩
                  exact hne hmm
              · have hv : validateTokenC now token sid = .error .mismatch := by
                  simp [validateTokenC, ht, hsp, hd, hex, hmm]
                refine ⟨by rw [hv]; simp, ?_, iff_of_true hv ⟨rfl, hmm⟩, ?_⟩
                · refine iff_of_false (by rw [hv]; simp) ?_
                  intro hfalse
                  exact Bool.noConfusion hfalse
                · refine iff_of_false (by rw [hv]; simp) ?_
                  rintro ⟨-, hsome⟩
                  exact hmm hsome
        have hne := (hmain a b c pl rfl hd).1
        exact ⟨iff_of_false hne (not_not_intro hex_mem), hmain⟩
    · have hv : validateTokenC now token sid = .error .malformed := by
        simp [validateTokenC, ht, hsp]
      constructor
      · refine iff_of_true hv ?_
        rintro ⟨p0, p1, p2, pl, heq, -⟩
        simp at heq
      · intro p0 p1 p2 payload heq _
        simp at heq

set_option maxRecDepth 20000 in
/-- Site-order exemplar: the concrete token minted at t = 0 (expiry 300000 ms),
validated at t = 1000000000 ms with the matching session id, fails as
`Expired`, not as `MalformedToken`. -/
theorem validateToken_taxonomy_witness :
    validateTokenC 1000000000 tokC7.token uuidStr = .error .expired ∧
    validateTokenC 1000000000 tokC7.token uuidStr ≠ .error .malformed := by
  have h := (validateToken_taxonomy 1000000000 tokC7.token uuidStr).2 tokC7seg0 tokC7seg1
    tokC7seg2 tokC7payload (by decide) (by decide)
  exact ⟨h.2.1.mpr (by decide), h.1⟩

/-! ## Base64 lemmas: `atob` inverts the url-safe encoding exactly when no
6-bit group maps to `-` or `_` -/

/-- Code points below the surrogate range convert to characters and back. -/
theorem toNat_ofNat_lt {n : Nat} (h : n < 55296) : (Char.ofNat n).toNat = n := by
  have hv : n.isValidChar := Or.inl h
  rw [Char.ofNat, dif_pos hv]
  rfl

/-- The base64url alphabet code points: at least 45, at most 122, never the
code of `=` (61) and never the code of `.` (46). -/
theorem b64UrlCode_range (v : Nat) :
    45 ≤ b64UrlCode v ∧ b64UrlCode v ≤ 122 ∧ b64UrlCode v ≠ 61 ∧ b64UrlCode v ≠ 46 := by
  unfold b64UrlCode
  split_ifs <;> omega

/-- Decoding a url-alphabet character with the standard alphabet recovers the
6-bit value exactly on the shared range `0..61`. -/
theorem b64StdVal_urlCode {v : Nat} (h : v < 62) :
    b64StdVal (Char.ofNat (b64UrlCode v)) = some v := by
  have h122 : b64UrlCode v ≤ 122 := (b64UrlCode_range v).2.1
  have htn : (Char.ofNat (b64UrlCode v)).toNat = b64UrlCode v :=
    toNat_ofNat_lt (by omega)
  by_cases h1 : v < 26
  · have e : b64UrlCode v = 65 + v := by unfold b64UrlCode; rw [if_pos h1]
    simp only [b64StdVal]
    rw [htn, e]
    rw [if_pos (by omega)]
    congr 1
    omega
  · by_cases h2 : v < 52
    · have e : b64UrlCode v = 97 + (v - 26) := by
        unfold b64UrlCode
        rw [if_neg h1, if_pos h2]
      simp only [b64StdVal]
      rw [htn, e]
      rw [if_neg (by omega), if_pos (by omega)]
      congr 1
      omega
    · have e : b64UrlCode v = 48 + (v - 52) := by
        unfold b64UrlCode
        rw [if_neg h1, if_neg h2, if_pos h]
      simp only [b64StdVal]
      rw [htn, e]
      rw [if_neg (by omega), if_neg (by omega), if_pos (by omega)]
      congr 1
      omega

/-- For 6-bit values 62 and 63 the url alphabet uses `-` and `_`, which the
standard-alphabet decoder rejects. -/
theorem urlCode_not_std {v : Nat} (h : 62 ≤ v) :
    isStdB64Char (Char.ofNat (b64UrlCode v)) = false := by
  have e : b64UrlCode v = 45 ∨ b64UrlCode v = 95 := by
    unfold b64UrlCode
    split_ifs <;> omega
  rcases e with e | e <;> rw [e] <;> rfl

/-- A url-alphabet character accepted by the standard decoder encodes a value
below 62. -/
theorem std_urlCode_lt {v : Nat} (h : isStdB64Char (Char.ofNat (b64UrlCode v)) = true) :
    v < 62 := by
  by_contra hge
  rw [urlCode_not_std (by omega)] at h
  exact Bool.noConfusion h

/-- Url-alphabet characters are never ASCII whitespace. -/
theorem urlCode_not_ws (v : Nat) : isB64Ws (Char.ofNat (b64UrlCode v)) = false := by
  obtain ⟨h45, h122, -, -⟩ := b64UrlCode_range v
  have htn : (Char.ofNat (b64UrlCode v)).toNat = b64UrlCode v := toNat_ofNat_lt (by omega)
  simp only [isB64Ws, htn, Bool.or_eq_false_iff, decide_eq_false_iff_not]
  omega

/-- Url-alphabet characters are never `=`. -/
theorem urlCode_ne_eq (v : Nat) : Char.ofNat (b64UrlCode v) ≠ '=' := by
  obtain ⟨h45, h122, h61, -⟩ := b64UrlCode_range v
  have htn : (Char.ofNat (b64UrlCode v)).toNat = b64UrlCode v := toNat_ofNat_lt (by omega)
  intro h
  have := congrArg Char.toNat h
  rw [htn] at this
  exact h61 (by simpa using this)

/-- Url-alphabet characters are never `.`. -/
theorem urlCode_ne_dot (v : Nat) : Char.ofNat (b64UrlCode v) ≠ '.' := by
  obtain ⟨h45, h122, -, h46⟩ := b64UrlCode_range v
  have htn : (Char.ofNat (b64UrlCode v)).toNat = b64UrlCode v := toNat_ofNat_lt (by omega)
  intro h
  have := congrArg Char.toNat h
  rw [htn] at this
  exact h46 (by simpa using this)

/-- The encoded string never contains `.`. -/
theorem base64urlEncode_ne_dot {bs : List Nat} {ch : Char} (h : ch ∈ base64urlEncode bs) :
    ch ≠ '.' := by
  obtain ⟨v, -, rfl⟩ := List.mem_map.mp h
  exact urlCode_ne_dot v

/-- The number of 6-bit groups is never congruent to 1 modulo 4. -/
theorem bytesToSextets_mod4 : ∀ bs : List Nat, (bytesToSextets bs).length % 4 ≠ 1
  | [] => by simp [bytesToSextets]
  | [b1] => by simp [bytesToSextets]
  | [b1, b2] => by simp [bytesToSextets]
  | b1 :: b2 :: b3 :: rest => by
      have ih := bytesToSextets_mod4 rest
      simp only [bytesToSextets, List.length_cons]
      omega

/-- Decoding the 6-bit groups of a byte list restores the bytes. -/
theorem sextetsToBytes_bytesToSextets : ∀ bs : List Nat, (∀ b ∈ bs, b < 256) →
    sextetsToBytes (bytesToSextets bs) = some bs
  | [], _ => rfl
  | [b1], h => by
      have h1 : b1 < 256 := h b1 (by simp)
      simp only [bytesToSextets, sextetsToBytes, Option.some.injEq, List.cons.injEq, and_true]
      omega
  | [b1, b2], h => by
      have h1 : b1 < 256 := h b1 (by simp)
      have h2 : b2 < 256 := h b2 (by simp)
      simp only [bytesToSextets, sextetsToBytes, Option.some.injEq, List.cons.injEq, and_true]
      constructor <;> omega
  | b1 :: b2 :: b3 :: rest, h => by
      have h1 : b1 < 256 := h b1 (by simp)
      have h2 : b2 < 256 := h b2 (by simp)
      have h3 : b3 < 256 := h b3 (by simp)
      have ih := sextetsToBytes_bytesToSextets rest (fun b hb => h b (by simp [hb]))
      simp only [bytesToSextets, sextetsToBytes, ih, Option.map_eq_map, Option.map_some]
      simp only [Option.some.injEq, List.cons.injEq]
      refine ⟨by omega, by omega, by omega, trivial⟩

/-- Mapping back through the standard alphabet succeeds when every group is in
the shared range. -/
theorem mapM_b64StdVal_encode : ∀ vs : List Nat, (∀ v ∈ vs, v < 62) →
    (vs.map (fun v => Char.ofNat (b64UrlCode v))).mapM b64StdVal = some vs
  | [], _ => rfl
  | v :: vs, h => by
      have hv : v < 62 := h v (by simp)
      have ih := mapM_b64StdVal_encode vs (fun w hw => h w (by simp [hw]))
      simp only [List.map_cons, List.mapM_cons, b64StdVal_urlCode hv, ih]
      rfl

/-- `atob` (forgiving base64, standard alphabet) inverts the unpadded
base64url encoding exactly when the encoded string avoids the two url-only
characters. -/
theorem forgivingBase64_base64urlEncode (bs : List Nat) (hb : ∀ b ∈ bs, b < 256)
    (hstd : (base64urlEncode bs).all isStdB64Char = true) :
    forgivingBase64 (base64urlEncode bs) = some bs := by
  have hfilter : (base64urlEncode bs).filter (fun c => !isB64Ws c) = base64urlEncode bs := by
    rw [List.filter_eq_self]
    intro ch hch
    obtain ⟨v, -, rfl⟩ := List.mem_map.mp hch
    rw [urlCode_not_ws v]
    rfl
  have hpad : stripPad (base64urlEncode bs) = base64urlEncode bs := by
    unfold stripPad
    split_ifs with hlen
    · rcases hrev : (base64urlEncode bs).reverse with _ | ⟨c0, r⟩
      · rfl
      · have hc0 : c0 ∈ base64urlEncode bs := by
          rw [← List.mem_reverse, hrev]
          simp
        obtain ⟨v, -, hv⟩ := List.mem_map.mp hc0
        have hne : c0 ≠ '=' := hv ▸ urlCode_ne_eq v
        rcases r with _ | ⟨c1, r2⟩
        · simp [hne]
        · have hc1 : c1 ∈ base64urlEncode bs := by
            rw [← List.mem_reverse, hrev]
            simp
          obtain ⟨w, -, hw⟩ := List.mem_map.mp hc1
          have hne1 : c1 ≠ '=' := hw ▸ urlCode_ne_eq w
          simp [hne, hne1]
    · rfl
  have hlen4 : ¬ (base64urlEncode bs).length % 4 = 1 := by
    unfold base64urlEncode
    rw [List.length_map]
    exact bytesToSextets_mod4 bs
  have hvs : ∀ v ∈ bytesToSextets bs, v < 62 := by
    intro v hv
    apply std_urlCode_lt
    have : Char.ofNat (b64UrlCode v) ∈ base64urlEncode bs := List.mem_map_of_mem _ hv
    exact List.all_eq_true.mp hstd _ this
  unfold forgivingBase64
  dsimp only
  rw [hfilter, hpad, if_neg hlen4]
  unfold base64urlEncode
  rw [mapM_b64StdVal_encode (bytesToSextets bs) hvs]
  exact sextetsToBytes_bytesToSextets bs hb

/-! ## Number printing/parsing round trip -/

/-- `natDigitsAux` is fuel-independent once the fuel exceeds the number. -/
theorem natDigitsAux_fuel : ∀ fuel fuel' n : Nat, n < fuel → n < fuel' →
    natDigitsAux fuel n = natDigitsAux fuel' n := by
  intro fuel
  induction fuel with
  | zero => intro fuel' n h; omega
  | succ f ih =>
      intro fuel' n h h'
      cases fuel' with
      | zero => omega
      | succ f' =>
          simp only [natDigitsAux]
          by_cases h10 : n < 10
          · rw [if_pos h10, if_pos h10]
          · rw [if_neg h10, if_neg h10]
            congr 1
            exact ih f' (n / 10) (by omega) (by omega)

/-- The defining recursion of `natDigits`. -/
theorem natDigits_step (n : Nat) : natDigits n =
    if n < 10 then [Char.ofNat (48 + n)]
    else natDigits (n / 10) ++ [Char.ofNat (48 + n % 10)] := by
  unfold natDigits
  simp only [natDigitsAux]
  by_cases h10 : n < 10
  · rw [if_pos h10, if_pos h10]
  · rw [if_neg h10, if_neg h10]
    congr 1
    exact natDigitsAux_fuel n (n / 10 + 1) (n / 10) (by omega) (by omega)

/-- The decimal rendering starts with a digit character. -/
theorem natDigits_head : ∀ n : Nat, ∃ d r, natDigits n = Char.ofNat (48 + d) :: r ∧ d < 10 := by
  intro n
  induction n using Nat.strong_induction_on with
  | _ n ih =>
      rw [natDigits_step]
      by_cases h10 : n < 10
      · rw [if_pos h10]
        exact ⟨n, [], rfl, h10⟩
      · rw [if_neg h10]
        obtain ⟨d, r, hh, hd⟩ := ih (n / 10) (by omega)
        refine ⟨d, r ++ [Char.ofNat (48 + n % 10)], ?_, hd⟩
        rw [hh]
        rfl

/-- A digit run stopped by a non-digit (or the end of input) returns the
accumulator. -/
theorem parseDigitsAux_stop (rest : List Char) (acc : Nat) (h : headNotDigit rest = true) :
    parseDigitsAux rest acc = (acc, rest) := by
  cases rest with
  | nil => rfl
  | cons c r =>
      simp only [headNotDigit, Bool.not_eq_true'] at h
      simp [parseDigitsAux, h]

/-- Scanning the decimal rendering of `n` multiplies the accumulator by the
corresponding power of ten and adds `n`. -/
theorem parseDigitsAux_natDigits : ∀ n : Nat, ∀ (rest : List Char) (acc : Nat),
    parseDigitsAux (natDigits n ++ rest) acc =
      parseDigitsAux rest (acc * 10 ^ (natDigits n).length + n) := by
  intro n
  induction n using Nat.strong_induction_on with
  | _ n ih =>
      intro rest acc
      by_cases h10 : n < 10
      · have hstep : natDigits n = [Char.ofNat (48 + n)] := by
          rw [natDigits_step, if_pos h10]
        have htn : (Char.ofNat (48 + n)).toNat = 48 + n := toNat_ofNat_lt (by omega)
        have hdig : isDigitChar (Char.ofNat (48 + n)) = true := by
          simp [isDigitChar, htn]
          omega
        rw [hstep, List.singleton_append]
        simp only [parseDigitsAux, hdig, if_true, htn, List.length_singleton, pow_one]
        congr 1
        omega
      · have hstep : natDigits n = natDigits (n / 10) ++ [Char.ofNat (48 + n % 10)] := by
          rw [natDigits_step, if_neg h10]
        have htn : (Char.ofNat (48 + n % 10)).toNat = 48 + n % 10 := toNat_ofNat_lt (by omega)
        have hdig : isDigitChar (Char.ofNat (48 + n % 10)) = true := by
          simp [isDigitChar, htn]
          omega
        rw [hstep, List.append_assoc, ih (n / 10) (by omega), List.singleton_append]
        simp only [parseDigitsAux, hdig, if_true, htn]
        congr 1
        rw [List.length_append, List.length_singleton, pow_succ]
        have hsub : 48 + n % 10 - 48 = n % 10 := by omega
        have hmod : n / 10 * 10 + n % 10 = n := by omega
        calc (acc * 10 ^ (natDigits (n / 10)).length + n / 10) * 10 + (48 + n % 10 - 48)
            = acc * (10 ^ (natDigits (n / 10)).length * 10) + (n / 10 * 10 + n % 10) := by
              rw [hsub]; ring
          _ = acc * (10 ^ (natDigits (n / 10)).length * 10) + n := by rw [hmod]

/-- Parsing the JS decimal rendering of an integer recovers the integer. -/
theorem parseJNum_intChars (m : Int) (rest : List Char) (hrest : headNotDigit rest = true) :
    parseJNum (intChars m ++ rest) = some (m, rest) := by
  by_cases hm : m < 0
  · obtain ⟨d, r, hh, hd⟩ := natDigits_head m.natAbs
    have hcons : natDigits m.natAbs ++ rest = Char.ofNat (48 + d) :: (r ++ rest) := by
      rw [hh]
      rfl
    have htn : (Char.ofNat (48 + d)).toNat = 48 + d := toNat_ofNat_lt (by omega)
    have hdig : isDigitChar (Char.ofNat (48 + d)) = true := by
      simp [isDigitChar, htn]
      omega
    rw [show intChars m ++ rest = '-' :: (natDigits m.natAbs ++ rest) from by
      rw [intChars, if_pos hm]; rfl]
    simp only [parseJNum]
    rw [if_pos trivial, hcons]
    simp only [hdig, if_true]
    rw [← hcons, parseDigitsAux_natDigits, parseDigitsAux_stop rest _ hrest]
    simp only [Option.some.injEq, Prod.mk.injEq, and_true]
    omega
  · obtain ⟨d, r, hh, hd⟩ := natDigits_head m.toNat
    have hcons : natDigits m.toNat ++ rest = Char.ofNat (48 + d) :: (r ++ rest) := by
      rw [hh]
      rfl
    have htn : (Char.ofNat (48 + d)).toNat = 48 + d := toNat_ofNat_lt (by omega)
    have hdig : isDigitChar (Char.ofNat (48 + d)) = true := by
      simp [isDigitChar, htn]
      omega
    have hnq : ¬ (Char.ofNat (48 + d) = '-') := by
      intro hcq
      have := congrArg Char.toNat hcq
      rw [htn] at this
      simp at this
      omega
    rw [show intChars m ++ rest = natDigits m.toNat ++ rest from by rw [intChars, if_neg hm]]
    rw [hcons]
    simp only [parseJNum]
    rw [if_neg hnq]
    simp only [hdig, if_true]
    rw [← hcons, parseDigitsAux_natDigits, parseDigitsAux_stop rest _ hrest]
    simp only [Option.some.injEq, Prod.mk.injEq, and_true]
    omega

/-! ## String escaping round trip -/

/-- Unfolding of `escapeStr` on a cons. -/
theorem escapeStr_cons (c : Char) (s : JStr) :
    escapeStr (c :: s) = escapeChar c ++ escapeStr s := by
  simp [escapeStr]

/-- Hex digit characters decode to their value. -/
theorem hexVal_hexDigitChar {d : Nat} (h : d < 16) : hexVal (hexDigitChar d) = some d := by
  unfold hexDigitChar
  by_cases h10 : d < 10
  · rw [if_pos h10]
    have htn : (Char.ofNat (48 + d)).toNat = 48 + d := toNat_ofNat_lt (by omega)
    simp only [hexVal, htn]
    rw [if_pos (by omega)]
    congr 1
    omega
  · rw [if_neg h10]
    have htn : (Char.ofNat (87 + d)).toNat = 87 + d := toNat_ofNat_lt (by omega)
    simp only [hexVal, htn]
    rw [if_neg (by omega), if_pos (by omega)]
    congr 1
    omega

/-- One-step reduction helper for escaped control characters: parsing
`\\x` for a simple escape `x` decoding to `c` prepends `c`. -/
theorem parseJStrBody_simple_escape (e c : Char) (tail : List Char)
    (he : e ≠ 'u') (hu : unescapeSimple e = some c) :
    parseJStrBody ('\\' :: e :: tail) =
      (fun p => (c :: p.1, p.2)) <$> parseJStrBody tail := by
  rw [parseJStrBody.eq_def]
  dsimp only
  rw [if_neg (by decide), if_pos rfl, if_neg he, hu]

/-- Parsing an escaped string body up to the closing quote recovers the
original string. -/
theorem parseJStrBody_escape : ∀ (s : JStr) (rest : List Char),
    parseJStrBody (escapeStr s ++ '"' :: rest) = some (s, rest)
  | [], rest => by
      rw [show escapeStr [] = [] from rfl, List.nil_append]
      simp [parseJStrBody.eq_def]
  | c :: s, rest => by
      rw [escapeStr_cons, List.append_assoc]
      have ih := parseJStrBody_escape s rest
      by_cases h1 : c = '"'
      · subst h1
        rw [show escapeChar '"' = ['\\', '"'] from rfl]
        rw [show (['\\', '"'] : List Char) ++ (escapeStr s ++ '"' :: rest) =
          '\\' :: '"' :: (escapeStr s ++ '"' :: rest) from rfl]
        rw [parseJStrBody_simple_escape '\"' '\"' _ (by decide) rfl, ih]
        rfl
      · by_cases h2 : c = '\\'
        · subst h2
          rw [show escapeChar '\\' = ['\\', '\\'] from rfl]
          rw [show (['\\', '\\'] : List Char) ++ (escapeStr s ++ '"' :: rest) =
            '\\' :: '\\' :: (escapeStr s ++ '"' :: rest) from rfl]
          rw [parseJStrBody_simple_escape '\\' '\\' _ (by decide) rfl, ih]
          rfl
        · by_cases h3 : c = Char.ofNat 8
          · subst h3
            rw [show escapeChar (Char.ofNat 8) = ['\\', 'b'] from rfl]
            rw [show (['\\', 'b'] : List Char) ++ (escapeStr s ++ '"' :: rest) =
              '\\' :: 'b' :: (escapeStr s ++ '"' :: rest) from rfl]
            rw [parseJStrBody_simple_escape 'b' (Char.ofNat 8) _ (by decide) rfl, ih]
            rfl
          · by_cases h4 : c = Char.ofNat 9
            · subst h4
              rw [show escapeChar (Char.ofNat 9) = ['\\', 't'] from rfl]
              rw [show (['\\', 't'] : List Char) ++ (escapeStr s ++ '"' :: rest) =
                '\\' :: 't' :: (escapeStr s ++ '"' :: rest) from rfl]
              rw [parseJStrBody_simple_escape 't' (Char.ofNat 9) _ (by decide) rfl, ih]
              rfl
            · by_cases h5 : c = Char.ofNat 10
              · subst h5
                rw [show escapeChar (Char.ofNat 10) = ['\\', 'n'] from rfl]
                rw [show (['\\', 'n'] : List Char) ++ (escapeStr s ++ '"' :: rest) =
                  '\\' :: 'n' :: (escapeStr s ++ '"' :: rest) from rfl]
                rw [parseJStrBody_simple_escape 'n' (Char.ofNat 10) _ (by decide) rfl, ih]
                rfl
              · by_cases h6 : c = Char.ofNat 12
                · subst h6
                  rw [show escapeChar (Char.ofNat 12) = ['\\', 'f'] from rfl]
                  rw [show (['\\', 'f'] : List Char) ++ (escapeStr s ++ '"' :: rest) =
                    '\\' :: 'f' :: (escapeStr s ++ '"' :: rest) from rfl]
                  rw [parseJStrBody_simple_escape 'f' (Char.ofNat 12) _ (by decide) rfl, ih]
                  rfl
                · by_cases h7 : c = Char.ofNat 13
                  · subst h7
                    rw [show escapeChar (Char.ofNat 13) = ['\\', 'r'] from rfl]
                    rw [show (['\\', 'r'] : List Char) ++ (escapeStr s ++ '"' :: rest) =
                      '\\' :: 'r' :: (escapeStr s ++ '"' :: rest) from rfl]
                    rw [parseJStrBody_simple_escape 'r' (Char.ofNat 13) _ (by decide) rfl, ih]
                    rfl
                  · by_cases h8 : c.toNat < 32
                    · have hesc : escapeChar c =
                          ['\\', 'u', '0', '0', hexDigitChar (c.toNat / 16),
                           hexDigitChar (c.toNat % 16)] := by
                        unfold escapeChar
                        rw [if_neg h1, if_neg h2, if_neg h3, if_neg h4, if_neg h5, if_neg h6,
                          if_neg h7, if_pos h8]
                      rw [hesc]
                      have hv1 : hexVal (hexDigitChar (c.toNat / 16)) = some (c.toNat / 16) :=
                        hexVal_hexDigitChar (by omega)
                      have hv2 : hexVal (hexDigitChar (c.toNat % 16)) = some (c.toNat % 16) :=
                        hexVal_hexDigitChar (by omega)
                      have hz : hexVal '0' = some 0 := rfl
                      simp only [List.cons_append, List.nil_append]
                      rw [parseJStrBody.eq_def]
                      dsimp only
                      rw [if_neg (by decide), if_pos rfl, if_pos rfl]
                      rw [hz, hv1, hv2]
                      dsimp only
                      rw [show ((0 * 16 + 0) * 16 + c.toNat / 16) * 16 + c.toNat % 16 =
                        c.toNat from by omega]
                      rw [ih, Char.ofNat_toNat]
                      rfl
                    · have hesc : escapeChar c = [c] := by
                        unfold escapeChar
                        rw [if_neg h1, if_neg h2, if_neg h3, if_neg h4, if_neg h5, if_neg h6,
                          if_neg h7, if_neg h8]
                      rw [hesc, List.singleton_append]
                      rw [parseJStrBody.eq_def]
                      dsimp only
                      rw [if_neg h1, if_neg h2, if_neg h8]
                      rw [ih]
                      rfl

/-! ## JSON value and object round trip -/

/-- Parsing a serialized primitive followed by a non-digit recovers the
primitive. -/
theorem parseJPrim_stringify (v : JPrim) (rest : List Char) (hrest : headNotDigit rest = true) :
    parseJPrim (stringifyPrim v ++ rest) = some (v, rest) := by
  cases v with
  | str s =>
      rw [show stringifyPrim (.str s) ++ rest =
        '"' :: (escapeStr s ++ '"' :: rest) from by simp [stringifyPrim]]
      simp only [parseJPrim]
      rw [if_pos trivial, parseJStrBody_escape]
      rfl
  | num m =>
      by_cases hm : m < 0
      · have hic : intChars m = '-' :: natDigits m.natAbs := by
          rw [intChars, if_pos hm]
        rw [show stringifyPrim (.num m) = intChars m from rfl, hic]
        rw [show ('-' :: natDigits m.natAbs) ++ rest = '-' :: (natDigits m.natAbs ++ rest)
          from rfl]
        simp only [parseJPrim]
        rw [if_neg (by decide), if_pos (by decide)]
        rw [show '-' :: (natDigits m.natAbs ++ rest) = ('-' :: natDigits m.natAbs) ++ rest
          from rfl, ← hic]
        rw [parseJNum_intChars m rest hrest]
        rfl
      · obtain ⟨d, r, hh, hd⟩ := natDigits_head m.toNat
        have hic : intChars m = natDigits m.toNat := by rw [intChars, if_neg hm]
        have htn : (Char.ofNat (48 + d)).toNat = 48 + d := toNat_ofNat_lt (by omega)
        have hdig : isDigitChar (Char.ofNat (48 + d)) = true := by
          simp [isDigitChar, htn]
          omega
        have hnq : ¬ (Char.ofNat (48 + d) = '"') := by
          intro hcq
          have := congrArg Char.toNat hcq
          rw [htn] at this
          simp at this
          omega
        rw [show stringifyPrim (.num m) = intChars m from rfl, hic, hh]
        rw [show (Char.ofNat (48 + d) :: r) ++ rest = Char.ofNat (48 + d) :: (r ++ rest)
          from rfl]
        simp only [parseJPrim]
        rw [if_neg hnq, if_pos (by simp [hdig])]
        rw [show Char.ofNat (48 + d) :: (r ++ rest) = (Char.ofNat (48 + d) :: r) ++ rest
          from rfl, ← hh, ← hic]
        rw [parseJNum_intChars m rest hrest]
        rfl
  | bool b =>
      cases b with
      | true =>
          rw [show stringifyPrim (.bool true) ++ rest =
            't' :: 'r' :: 'u' :: 'e' :: rest from rfl]
          simp only [parseJPrim]
          rw [if_neg (by decide), if_neg (by decide),
            if_pos (by simp [List.isPrefixOf])]
          rfl
      | false =>
          rw [show stringifyPrim (.bool false) ++ rest =
            'f' :: 'a' :: 'l' :: 's' :: 'e' :: rest from rfl]
          simp only [parseJPrim]
          rw [if_neg (by decide), if_neg (by decide), if_neg (by simp [List.isPrefixOf]),
            if_pos (by simp [List.isPrefixOf])]
          rfl
  | null =>
      rw [show stringifyPrim .null ++ rest = 'n' :: 'u' :: 'l' :: 'l' :: rest from rfl]
      simp only [parseJPrim]
      rw [if_neg (by decide), if_neg (by decide), if_neg (by simp [List.isPrefixOf]),
        if_neg (by simp [List.isPrefixOf]), if_pos (by simp [List.isPrefixOf])]
      rfl

/-- The serialized members are at least as long as the member list. -/
theorem stringifyPairs_length_ge : ∀ o : JFlat, o.length ≤ (stringifyPairs o).length
  | [] => by simp [stringifyPairs]
  | [(k, v)] => by simp [stringifyPairs]
  | (k, v) :: p :: o => by
      have ih := stringifyPairs_length_ge (p :: o)
      simp only [stringifyPairs, List.length_append, List.length_cons]
      simp only [List.length_cons] at ih
      omega

/-- The serialization of a nonempty member list starts with a quote. -/
theorem stringifyPairs_cons_head (p : JStr × JPrim) (o : JFlat) :
    ∃ t, stringifyPairs (p :: o) = '"' :: t := by
  rcases o with _ | ⟨q, o'⟩
  · exact ⟨escapeStr p.1 ++ '"' :: ':' :: stringifyPrim p.2, rfl⟩
  · exact ⟨(escapeStr p.1 ++ '"' :: ':' :: stringifyPrim p.2) ++ ',' :: stringifyPairs (q :: o'),
      rfl⟩

/-- Parsing the serialized members followed by `}` recovers the member list. -/
theorem parseJPairs_stringify : ∀ (o : JFlat) (fuel : Nat) (rest : List Char),
    o ≠ [] → o.length ≤ fuel →
    parseJPairs fuel (stringifyPairs o ++ rbrace :: rest) = some (o, rest)
  | [], _, _, hne, _ => absurd rfl hne
  | [(k, v)], fuel, rest, _, hf => by
      obtain ⟨f, rfl⟩ : ∃ f, fuel = f + 1 :=
        ⟨fuel - 1, by simp only [List.length_cons, List.length_nil] at hf; omega⟩
      rw [show stringifyPairs [(k, v)] ++ rbrace :: rest =
        '"' :: (escapeStr k ++ '"' :: (':' :: (stringifyPrim v ++ rbrace :: rest)))
        from by simp [stringifyPairs]]
      have hstep : parseJPairs (f + 1)
          ('"' :: (escapeStr k ++ '"' :: (':' :: (stringifyPrim v ++ rbrace :: rest)))) =
          (match parseJPrim (stringifyPrim v ++ rbrace :: rest) with
            | none => none
            | some (v, rest3) =>
                if rest3.head? = some rbrace then some ([(k, v)], rest3.tail)
                else if rest3.head? = some ',' then
                  (fun p => ((k, v) :: p.1, p.2)) <$> parseJPairs f rest3.tail
                else none) := by
        simp only [parseJPairs]
        rw [parseJStrBody_escape]
        rfl
      rw [hstep, parseJPrim_stringify v (rbrace :: rest) rfl]
      dsimp only [List.head?_cons, List.tail_cons]
      rw [if_pos rfl]
  | (k, v) :: p :: o, fuel, rest, _, hf => by
      obtain ⟨f, rfl⟩ : ∃ f, fuel = f + 1 :=
        ⟨fuel - 1, by simp only [List.length_cons] at hf; omega⟩
      have ih := parseJPairs_stringify (p :: o) f rest (by simp) (by
        simp only [List.length_cons] at hf ⊢
        omega)
      rw [show stringifyPairs ((k, v) :: p :: o) ++ rbrace :: rest =
        '"' :: (escapeStr k ++ '"' :: (':' :: (stringifyPrim v ++
          ',' :: (stringifyPairs (p :: o) ++ rbrace :: rest))))
        from by simp [stringifyPairs]]
      have hstep : parseJPairs (f + 1)
          ('"' :: (escapeStr k ++ '"' :: (':' :: (stringifyPrim v ++
            ',' :: (stringifyPairs (p :: o) ++ rbrace :: rest))))) =
          (match parseJPrim (stringifyPrim v ++
              ',' :: (stringifyPairs (p :: o) ++ rbrace :: rest)) with
            | none => none
            | some (v, rest3) =>
                if rest3.head? = some rbrace then some ([(k, v)], rest3.tail)
                else if rest3.head? = some ',' then
                  (fun p => ((k, v) :: p.1, p.2)) <$> parseJPairs f rest3.tail
                else none) := by
        simp only [parseJPairs]
        rw [parseJStrBody_escape]
        rfl
      rw [hstep,
        parseJPrim_stringify v (',' :: (stringifyPairs (p :: o) ++ rbrace :: rest)) rfl]
      dsimp only [List.head?_cons, List.tail_cons]
      rw [if_neg (by decide), if_pos rfl, ih]
      rfl

/-- `JSON.parse` inverts `JSON.stringify` on flat objects. -/
theorem parseJFlat_stringifyFlat (o : JFlat) : parseJFlat (stringifyFlat o) = some o := by
  rcases o with _ | ⟨p, o'⟩
  · rfl
  · obtain ⟨t, hh⟩ := stringifyPairs_cons_head p o'
    rw [show stringifyFlat (p :: o') = lbrace :: (stringifyPairs (p :: o') ++ [rbrace])
      from rfl]
    simp only [parseJFlat]
    rw [if_pos trivial]
    have hhead : (stringifyPairs (p :: o') ++ [rbrace]).head? = some '"' := by
      rw [hh]
      rfl
    rw [if_neg (by rw [hhead]; decide)]
    have hlen : (p :: o').length ≤ (stringifyPairs (p :: o') ++ [rbrace]).length := by
      have hge := stringifyPairs_length_ge (p :: o')
      rw [List.length_append]
      omega
    rw [parseJPairs_stringify (p :: o') ((stringifyPairs (p :: o') ++ [rbrace]).length + 1) []
      (by simp) (by omega)]

/-! ## ASCII bounds for serialized payloads -/

/-- Hex digit characters are ASCII. -/
theorem hexDigitChar_ascii {d : Nat} (h : d < 16) : (hexDigitChar d).toNat < 128 := by
  unfold hexDigitChar
  split_ifs with h10
  · rw [toNat_ofNat_lt (by omega)]
    omega
  · rw [toNat_ofNat_lt (by omega)]
    omega

/-- Escaping a single ASCII character yields ASCII characters. -/
theorem escapeChar_ascii {c : Char} (hc : c.toNat < 128) :
    ∀ x ∈ escapeChar c, x.toNat < 128 := by
  intro x hx
  unfold escapeChar at hx
  split_ifs at hx with h1 h2 h3 h4 h5 h6 h7 h8 <;>
    simp only [List.mem_cons, List.not_mem_nil, or_false] at hx
  · rcases hx with rfl | rfl <;> decide
  · rcases hx with rfl | rfl <;> decide
  · rcases hx with rfl | rfl <;> decide
  · rcases hx with rfl | rfl <;> decide
  · rcases hx with rfl | rfl <;> decide
  · rcases hx with rfl | rfl <;> decide
  · rcases hx with rfl | rfl <;> decide
  · rcases hx with rfl | rfl | rfl | rfl | rfl | rfl
    · decide
    · decide
    · decide
    · decide
    · exact hexDigitChar_ascii (by omega)
    · exact hexDigitChar_ascii (by omega)
  · exact hx ▸ hc

/-- Escaping an ASCII string yields ASCII characters. -/
theorem escapeStr_ascii {s : JStr} (hs : allAscii s = true) :
    ∀ x ∈ escapeStr s, x.toNat < 128 := by
  intro x hx
  unfold escapeStr at hx
  obtain ⟨l, hl, hxl⟩ := List.mem_flatten.mp hx
  obtain ⟨c, hcm, rfl⟩ := List.mem_map.mp hl
  have hca : c.toNat < 128 := by
    have h := (List.all_eq_true.mp hs) c hcm
    simpa using h
  exact escapeChar_ascii hca x hxl

/-- Decimal digit characters are ASCII. -/
theorem natDigitsAux_ascii : ∀ (fuel n : Nat), ∀ x ∈ natDigitsAux fuel n, x.toNat < 128
  | 0, n => by simp [natDigitsAux]
  | fuel + 1, n => by
      intro x hx
      simp only [natDigitsAux] at hx
      by_cases h : n < 10
      · rw [if_pos h] at hx
        simp only [List.mem_cons, List.not_mem_nil, or_false] at hx
        subst hx
        rw [toNat_ofNat_lt (by omega)]
        omega
      · rw [if_neg h] at hx
        rcases List.mem_append.mp hx with h1 | h2
        · exact natDigitsAux_ascii fuel (n / 10) x h1
        · simp only [List.mem_cons, List.not_mem_nil, or_false] at h2
          subst h2
          rw [toNat_ofNat_lt (by omega)]
          have := Nat.mod_lt n (show 0 < 10 by omega)
          omega

/-- The decimal rendering of an integer is ASCII. -/
theorem intChars_ascii (n : Int) : ∀ x ∈ intChars n, x.toNat < 128 := by
  intro x hx
  unfold intChars natDigits at hx
  split_ifs at hx with h
  · rcases List.mem_cons.mp hx with rfl | h2
    · decide
    · exact natDigitsAux_ascii _ _ x h2
  · exact natDigitsAux_ascii _ _ x hx

/-- The serialization of a primitive whose string content is ASCII is ASCII. -/
theorem stringifyPrim_ascii {v : JPrim} (hstr : ∀ s, v = .str s → allAscii s = true) :
    ∀ x ∈ stringifyPrim v, x.toNat < 128 := by
  intro x hx
  cases v with
  | str s =>
      have hs := hstr s rfl
      simp only [stringifyPrim] at hx
      rcases List.mem_cons.mp hx with rfl | h2
      · decide
      · rcases List.mem_append.mp h2 with h3 | h4
        · exact escapeStr_ascii hs x h3
        · simp only [List.mem_cons, List.not_mem_nil, or_false] at h4
          subst h4
          decide
  | num n =>
      simp only [stringifyPrim] at hx
      exact intChars_ascii n x hx
  | bool b =>
      cases b with
      | true =>
          rw [show stringifyPrim (.bool true) = ['t', 'r', 'u', 'e'] from rfl] at hx
          simp only [List.mem_cons, List.not_mem_nil, or_false] at hx
          rcases hx with rfl | rfl | rfl | rfl <;> decide
      | false =>
          rw [show stringifyPrim (.bool false) = ['f', 'a', 'l', 's', 'e'] from rfl] at hx
          simp only [List.mem_cons, List.not_mem_nil, or_false] at hx
          rcases hx with rfl | rfl | rfl | rfl | rfl <;> decide
  | null =>
      rw [show stringifyPrim .null = ['n', 'u', 'l', 'l'] from rfl] at hx
      simp only [List.mem_cons, List.not_mem_nil, or_false] at hx
      rcases hx with rfl | rfl | rfl | rfl <;> decide

/-- The serialized members of an object with ASCII keys and string values are
ASCII. -/
theorem stringifyPairs_ascii : ∀ (o : JFlat),
    (∀ kv ∈ o, allAscii kv.1 = true ∧ ∀ s, kv.2 = .str s → allAscii s = true) →
    ∀ x ∈ stringifyPairs o, x.toNat < 128
  | [], _ => by simp [stringifyPairs]
  | [(k, v)], h => by
      intro x hx
      have hk := h (k, v) (by simp)
      simp only [stringifyPairs] at hx
      rcases List.mem_cons.mp hx with rfl | h2
      · decide
      · rcases List.mem_append.mp h2 with h3 | h4
        · exact escapeStr_ascii hk.1 x h3
        · rcases List.mem_cons.mp h4 with rfl | h5
          · decide
          · rcases List.mem_cons.mp h5 with rfl | h6
            · decide
            · exact stringifyPrim_ascii hk.2 x h6
  | (k, v) :: p :: o, h => by
      intro x hx
      have hk := h (k, v) (by simp)
      have ih := stringifyPairs_ascii (p :: o) (fun kv hkv => h kv (List.mem_cons_of_mem _ hkv))
      simp only [stringifyPairs] at hx
      rcases List.mem_append.mp hx with h1 | h2
      · rcases List.mem_cons.mp h1 with rfl | h3
        · decide
        · rcases List.mem_append.mp h3 with h4 | h5
          · exact escapeStr_ascii hk.1 x h4
          · rcases List.mem_cons.mp h5 with rfl | h6
            · decide
            · rcases List.mem_cons.mp h6 with rfl | h7
              · decide
              · exact stringifyPrim_ascii hk.2 x h7
      · rcases List.mem_cons.mp h2 with rfl | h3
        · decide
        · exact ih x h3

/-- The bytes of the serialized token payload are valid byte values whenever
the country, worker id and session id are ASCII. -/
theorem strBytes_payload_lt (p : TokenPayload)
    (hc : allAscii p.country = true) (hw : allAscii p.workerId = true)
    (hs : allAscii p.sessionId = true) :
    ∀ b ∈ strBytes (stringifyFlat (payloadJson p)), b < 256 := by
  intro b hb
  simp only [strBytes] at hb
  obtain ⟨c, hcm, rfl⟩ := List.mem_map.mp hb
  have hlt : c.toNat < 128 := by
    simp only [stringifyFlat] at hcm
    rcases List.mem_cons.mp hcm with rfl | h2
    · decide
    · rcases List.mem_append.mp h2 with h3 | h4
      · refine stringifyPairs_ascii (payloadJson p) ?_ c h3
        intro kv hkv
        simp only [payloadJson, List.mem_cons, List.not_mem_nil, or_false] at hkv
        rcases hkv with rfl | rfl | rfl | rfl | rfl
        · exact ⟨show allAscii ("country".toList) = true by decide,
            fun s hs2 => by injection hs2 with h9; rw [← h9]; exact hc⟩
        · exact ⟨show allAscii ("workerId".toList) = true by decide,
            fun s hs2 => by injection hs2 with h9; rw [← h9]; exact hw⟩
        · exact ⟨show allAscii ("sessionId".toList) = true by decide,
            fun s hs2 => by injection hs2 with h9; rw [← h9]; exact hs⟩
        · exact ⟨show allAscii ("issued".toList) = true by decide,
            fun s hs2 => JPrim.noConfusion hs2⟩
        · exact ⟨show allAscii ("expires".toList) = true by decide,
            fun s hs2 => JPrim.noConfusion hs2⟩
      · simp only [List.mem_cons, List.not_mem_nil, or_false] at h4
        rw [h4]
        decide
  omega

/-- Reading back the bytes of a string recovers the string. -/
theorem bytesToStr_strBytes : ∀ s : JStr, bytesToStr (strBytes s) = s
  | [] => rfl
  | c :: s => by
      have ih := bytesToStr_strBytes s
      simp only [strBytes, bytesToStr, List.map_cons] at ih ⊢
      rw [Char.ofNat_toNat, ih]

/-! ## `split` lemmas -/

/-- `split` never returns an empty array. -/
theorem splitOnChar_ne_nil (sep : Char) : ∀ l : List Char, splitOnChar sep l ≠ []
  | [] => by simp [splitOnChar]
  | c :: rest => by
      simp only [splitOnChar]
      rcases hsp : splitOnChar sep rest with _ | ⟨cur, out⟩
      · simp
      · dsimp only
        split <;> simp

/-- `split` on a string free of the separator returns the single piece. -/
theorem splitOnChar_not_mem (sep : Char) : ∀ l : List Char, (∀ c ∈ l, c ≠ sep) →
    splitOnChar sep l = [l]
  | [], _ => rfl
  | c :: rest, h => by
      have ih := splitOnChar_not_mem sep rest (fun x hx => h x (List.mem_cons_of_mem _ hx))
      simp only [splitOnChar, ih]
      rw [if_neg (h c (List.mem_cons_self _ _))]

/-- `split` peels off a separator-free prefix before a separator. -/
theorem splitOnChar_append (sep : Char) : ∀ (l1 l2 : List Char), (∀ c ∈ l1, c ≠ sep) →
    splitOnChar sep (l1 ++ sep :: l2) = l1 :: splitOnChar sep l2
  | [], l2, _ => by
      rw [List.nil_append]
      rcases hsp : splitOnChar sep l2 with _ | ⟨cur, out⟩
      · exact absurd hsp (splitOnChar_ne_nil sep l2)
      · simp only [splitOnChar, hsp]
        rw [if_pos trivial]
  | c :: l1, l2, h => by
      have ih := splitOnChar_append sep l1 l2 (fun x hx => h x (List.mem_cons_of_mem _ hx))
      rw [List.cons_append]
      simp only [splitOnChar, ih]
      rw [if_neg (h c (List.mem_cons_self _ _))]

/-- A three-segment dotted string splits into its three segments when none of
them contains a dot. -/
theorem splitOnChar_token (h p s : List Char)
    (hh : ∀ c ∈ h, c ≠ '.') (hp : ∀ c ∈ p, c ≠ '.') (hs : ∀ c ∈ s, c ≠ '.') :
    splitOnChar '.' (h ++ '.' :: (p ++ '.' :: s)) = [h, p, s] := by
  rw [splitOnChar_append '.' h (p ++ '.' :: s) hh, splitOnChar_append '.' p s hp,
    splitOnChar_not_mem '.' s hs]

/-- Decoding an encoded payload segment recovers the payload object, provided
the segment uses only standard-alphabet characters. -/
theorem decodePayloadSegment_encode (o : JFlat)
    (hb : ∀ b ∈ strBytes (stringifyFlat o), b < 256)
    (hstd : (base64urlEncode (strBytes (stringifyFlat o))).all isStdB64Char = true) :
    decodePayloadSegment (base64urlEncode (strBytes (stringifyFlat o))) = some o := by
  unfold decodePayloadSegment
  rw [forgivingBase64_base64urlEncode _ hb hstd]
  dsimp only
  rw [bytesToStr_strBytes, parseJFlat_stringifyFlat]

/-- C6 [amended]: generating a session token and immediately validating it on
the worker with the same session id, at a time no later than the payload
expiry, succeeds and returns the decoded payload, whose `country` and
`sessionId` members are the generation inputs - PROVIDED the base64url payload
segment happens to contain only characters of the standard base64 alphabet.
The proviso is needed because the client encodes with `base64url` (which uses
`-` and `_`) while the worker decodes with `atob` (standard alphabet only), so
the round trip as claimed does not hold for every endpoint identifier. -/
theorem generate_validate_roundtrip
    (auth : AuthCfg) (env : GenEnv) (country workerId : JStr) (now2 : Nat)
    (hc : allAscii country = true) (hw : allAscii workerId = true)
    (hs : allAscii env.sessionId = true)
    (hstd : (base64urlEncode (strBytes (stringifyFlat (payloadJson
      (generateSessionToken auth env country workerId).payload)))).all isStdB64Char = true)
    (hexp : now2 ≤ env.now + auth.tokenDuration * 1000) :
    validateTokenC now2 (generateSessionToken auth env country workerId).token env.sessionId
      = .ok (payloadJson (generateSessionToken auth env country workerId).payload) ∧
    jget (payloadJson (generateSessionToken auth env country workerId).payload)
      ("country".toList) = some (.str country) ∧
    jget (payloadJson (generateSessionToken auth env country workerId).payload)
      ("sessionId".toList) = some (.str env.sessionId) := by
  refine ⟨?_, rfl, rfl⟩
  have hb : ∀ b ∈ strBytes (stringifyFlat (payloadJson
      (generateSessionToken auth env country workerId).payload)), b < 256 :=
    strBytes_payload_lt _ hc hw hs
  have hdec := decodePayloadSegment_encode
    (payloadJson (generateSessionToken auth env country workerId).payload) hb hstd
  have htok : (generateSessionToken auth env country workerId).token =
      base64urlEncode (strBytes jwtHeaderJson) ++ '.' ::
        (base64urlEncode (strBytes (stringifyFlat (payloadJson
          (generateSessionToken auth env country workerId).payload))) ++ '.' ::
          base64urlEncode (env.hmac env.secret (base64urlEncode (strBytes jwtHeaderJson) ++
            '.' :: base64urlEncode (strBytes (stringifyFlat (payloadJson
              (generateSessionToken auth env country workerId).payload)))))) := rfl
  have hne : (generateSessionToken auth env country workerId).token ≠ [] := by
    rw [htok]
    intro hcon
    have h0 : base64urlEncode (strBytes jwtHeaderJson) = [] := (List.append_eq_nil.mp hcon).1
    exact absurd h0 (by decide)
  have hsplit : splitOnChar '.' ((generateSessionToken auth env country workerId).token) =
      [base64urlEncode (strBytes jwtHeaderJson),
       base64urlEncode (strBytes (stringifyFlat (payloadJson
         (generateSessionToken auth env country workerId).payload))),
       base64urlEncode (env.hmac env.secret (base64urlEncode (strBytes jwtHeaderJson) ++
         '.' :: base64urlEncode (strBytes (stringifyFlat (payloadJson
           (generateSessionToken auth env country workerId).payload)))))] := by
    rw [htok]
    exact splitOnChar_token _ _ _
      (fun c hch => base64urlEncode_ne_dot hch)
      (fun c hch => base64urlEncode_ne_dot hch)
      (fun c hch => base64urlEncode_ne_dot hch)
  unfold validateTokenC
  rw [if_neg hne, hsplit]
  dsimp only
  rw [hdec]
  dsimp only
  have hafter : jsAfterExpiry now2 (payloadJson
      (generateSessionToken auth env country workerId).payload) = false := by
    have hj : jget (payloadJson (generateSessionToken auth env country workerId).payload)
        ("expires".toList)
        = some (.num ((env.now + auth.tokenDuration * 1000 : Nat) : Int)) := rfl
    unfold jsAfterExpiry
    rw [hj]
    dsimp only [jsToNumber]
    rw [if_pos (by decide)]
    simp only [decide_eq_false_iff_not, gt_iff_lt, not_lt, Int.toNat_zero, pow_zero, mul_one]
    exact_mod_cast hexp
  rw [hafter, if_neg (by decide)]
  have hsid : jsSessionId (payloadJson
      (generateSessionToken auth env country workerId).payload) = some env.sessionId := rfl
  rw [if_neg (fun hcon => hcon hsid)]

set_option maxRecDepth 40000 in
/-- C6 counterexample: for the endpoint identifier `a?x` the payload segment
needs the url alphabet (a sextet of 63 encodes as `_`), `atob` rejects it, and
validation fails with `malformed` even though the token is fresh and the
session id matches - the generate/validate round trip of the claim does not
hold as stated. -/
theorem generate_validate_roundtrip_counterexample :
    validateTokenC 100
        (generateSessionToken testConfig.auth envOk.genEnv usStr badWorkerId).token
        envOk.genEnv.sessionId = .error .malformed ∧
    100 ≤ (generateSessionToken testConfig.auth envOk.genEnv usStr badWorkerId).payload.expires ∧
    (generateSessionToken testConfig.auth envOk.genEnv usStr badWorkerId).payload.sessionId
      = envOk.genEnv.sessionId := by
  decide

set_option maxRecDepth 40000 in
/-- C6 witness: the round trip at a concrete input discharging every
hypothesis. -/
theorem generate_validate_roundtrip_witness :
    validateTokenC 100 (generateSessionToken testConfig.auth envOk.genEnv usStr w2url).token
        envOk.genEnv.sessionId
      = .ok (payloadJson (generateSessionToken testConfig.auth envOk.genEnv usStr w2url).payload) ∧
    jget (payloadJson (generateSessionToken testConfig.auth envOk.genEnv usStr w2url).payload)
      ("country".toList) = some (.str usStr) ∧
    jget (payloadJson (generateSessionToken testConfig.auth envOk.genEnv usStr w2url).payload)
      ("sessionId".toList) = some (.str envOk.genEnv.sessionId) :=
  generate_validate_roundtrip testConfig.auth envOk.genEnv usStr w2url 100
    (by decide) (by decide) (by decide) (by decide) (by decide)

/-- `mapM` over the standard alphabet fails as soon as one character is
outside it. -/
theorem mapM_b64StdVal_none : ∀ l : List Char, l.all isStdB64Char = false →
    l.mapM b64StdVal = none
  | [], h => by simp at h
  | c :: r, h => by
      rcases hc : b64StdVal c with _ | d
      · rw [List.mapM_cons, hc]
        rfl
      · have hcs : isStdB64Char c = true := by
          unfold isStdB64Char
          rw [hc]
          rfl
        have hr : r.all isStdB64Char = false := by
          simp only [List.all_cons, hcs, Bool.true_and] at h
          exact h
        simp only [List.mapM_cons, hc, mapM_b64StdVal_none r hr]
        rfl

/-- `atob` fails on the url-safe encoding whenever some character of the
encoding is outside the standard alphabet. -/
theorem forgivingBase64_encode_none (bs : List Nat)
    (hstd : (base64urlEncode bs).all isStdB64Char = false) :
    forgivingBase64 (base64urlEncode bs) = none := by
  have hfilter : (base64urlEncode bs).filter (fun c => !isB64Ws c) = base64urlEncode bs := by
    rw [List.filter_eq_self]
    intro ch hch
    obtain ⟨v, -, rfl⟩ := List.mem_map.mp hch
    rw [urlCode_not_ws v]
    rfl
  have hpad : stripPad (base64urlEncode bs) = base64urlEncode bs := by
    unfold stripPad
    split_ifs with hlen
    · rcases hrev : (base64urlEncode bs).reverse with _ | ⟨c0, r⟩
      · rfl
      · have hc0 : c0 ∈ base64urlEncode bs := by
          rw [← List.mem_reverse, hrev]
          simp
        obtain ⟨v, -, hv⟩ := List.mem_map.mp hc0
        have hne : c0 ≠ '=' := hv ▸ urlCode_ne_eq v
        rcases r with _ | ⟨c1, r2⟩
        · simp [hne]
        · have hc1 : c1 ∈ base64urlEncode bs := by
            rw [← List.mem_reverse, hrev]
            simp
          obtain ⟨w, -, hw⟩ := List.mem_map.mp hc1
          have hne1 : c1 ≠ '=' := hw ▸ urlCode_ne_eq w
          simp [hne, hne1]
    · rfl
  have hlen4 : ¬ (base64urlEncode bs).length % 4 = 1 := by
    unfold base64urlEncode
    rw [List.length_map]
    exact bytesToSextets_mod4 bs
  unfold forgivingBase64
  dsimp only
  rw [hfilter, hpad, if_neg hlen4, mapM_b64StdVal_none _ hstd]

/-- The payload segment fails to decode whenever its encoding needs the url
alphabet. -/
theorem decodePayloadSegment_encode_none (o : JFlat)
    (hstd : (base64urlEncode (strBytes (stringifyFlat o))).all isStdB64Char = false) :
    decodePayloadSegment (base64urlEncode (strBytes (stringifyFlat o))) = none := by
  unfold decodePayloadSegment
  rw [forgivingBase64_encode_none _ hstd]

/-- The bytes of a serialized flat ASCII object are valid byte values. -/
theorem strBytes_flat_lt (o : JFlat)
    (ho : ∀ kv ∈ o, allAscii kv.1 = true ∧ ∀ s, kv.2 = .str s → allAscii s = true) :
    ∀ b ∈ strBytes (stringifyFlat o), b < 256 := by
  intro b hb
  simp only [strBytes] at hb
  obtain ⟨c, hcm, rfl⟩ := List.mem_map.mp hb
  have hlt : c.toNat < 128 := by
    simp only [stringifyFlat] at hcm
    rcases List.mem_cons.mp hcm with rfl | h2
    · decide
    · rcases List.mem_append.mp h2 with h3 | h4
      · exact stringifyPairs_ascii o ho c h3
      · simp only [List.mem_cons, List.not_mem_nil, or_false] at h4
        rw [h4]
        decide
  omega

/-- C7 [amended]: over the system token format - three dot-separated segments
whose payload segment base64url-encodes the serialization of a flat ASCII
JSON object, as minted by `generateSessionToken` - the Deno worker classifies
with its OWN decoder: it rejects as malformed exactly when the payload
segment needs the url alphabet (`atob` accepts only the standard alphabet),
and otherwise fails as expired exactly when the JS coercing comparison
`Date.now() > payload.expires` holds, as a session mismatch exactly when it
is not expired and `payload.sessionId` differs strictly from the expected id,
and returns the decoded payload otherwise.  In particular a token validated
after its expiry is reported malformed, not expired, whenever its payload
segment contains `-` or `_`. -/
theorem validateToken_systemFormat_taxonomy
    (o : JFlat) (hdr sig : JStr) (now : Nat) (sid : JStr)
    (ho : ∀ kv ∈ o, allAscii kv.1 = true ∧ ∀ s, kv.2 = .str s → allAscii s = true)
    (hh : ∀ c ∈ hdr, c ≠ '.') (hsg : ∀ c ∈ sig, c ≠ '.') :
    validateTokenC now
        (hdr ++ '.' :: (base64urlEncode (strBytes (stringifyFlat o)) ++ '.' :: sig)) sid =
      (if (base64urlEncode (strBytes (stringifyFlat o))).all isStdB64Char = false then
        .error .malformed
      else if jsAfterExpiry now o then .error .expired
      else if jsSessionId o ≠ some sid then .error .mismatch
      else .ok o) := by
  have hpne : ∀ c ∈ base64urlEncode (strBytes (stringifyFlat o)), c ≠ '.' :=
    fun c hc => base64urlEncode_ne_dot hc
  have hne : hdr ++ '.' :: (base64urlEncode (strBytes (stringifyFlat o)) ++ '.' :: sig)
      ≠ [] := by
    intro hcon
    exact List.noConfusion (List.append_eq_nil.mp hcon).2
  unfold validateTokenC
  rw [if_neg hne, splitOnChar_token hdr _ sig hh hpne hsg]
  dsimp only
  by_cases hstd :
      (base64urlEncode (strBytes (stringifyFlat o))).all isStdB64Char = false
  · rw [decodePayloadSegment_encode_none o hstd, if_pos hstd]
  · have hstd2 : (base64urlEncode (strBytes (stringifyFlat o))).all isStdB64Char = true := by
      cases hx : (base64urlEncode (strBytes (stringifyFlat o))).all isStdB64Char
      · exact absurd hx hstd
      · rfl
    have hb := strBytes_flat_lt o ho
    rw [decodePayloadSegment_encode o hb hstd2, if_neg hstd]

set_option maxRecDepth 40000 in
/-- C7 counterexample: the token minted for endpoint id `a?x` is three
dot-separated segments whose payload segment is the base64url encoding of the
serialized payload object (so its payload is decodable in the system's own
wire format, and the second worker implementation, whose Node decoder accepts
the url alphabet, does decode it); validated strictly after its expiry with
the matching session id, the Deno worker rejects it as malformed - `atob`
fails on the url alphabet before the expiry check can run - contradicting
the claim that such a token fails as expired and never as malformed. -/
theorem validateToken_expired_reported_malformed :
    splitOnChar '.'
        (generateSessionToken testConfig.auth envOk.genEnv usStr badWorkerId).token =
      [base64urlEncode (strBytes jwtHeaderJson),
       base64urlEncode (strBytes (stringifyFlat (payloadJson
         (generateSessionToken testConfig.auth envOk.genEnv usStr badWorkerId).payload))),
       base64urlEncode (envOk.genEnv.hmac envOk.genEnv.secret
         (base64urlEncode (strBytes jwtHeaderJson) ++ '.' ::
           base64urlEncode (strBytes (stringifyFlat (payloadJson
             (generateSessionToken testConfig.auth envOk.genEnv usStr
               badWorkerId).payload)))))] ∧
    300001 >
      (generateSessionToken testConfig.auth envOk.genEnv usStr badWorkerId).payload.expires ∧
    jsSessionId (payloadJson
        (generateSessionToken testConfig.auth envOk.genEnv usStr badWorkerId).payload) =
      some envOk.genEnv.sessionId ∧
    validateTokenC 300001
        (generateSessionToken testConfig.auth envOk.genEnv usStr badWorkerId).token
        envOk.genEnv.sessionId = .error .malformed := by
  decide

set_option maxRecDepth 40000 in
/-- C7 witness: the amended taxonomy at a concrete input discharging every
hypothesis; the payload carries the numeric string `"0"` as its expiry, the
segment stays inside the standard alphabet, and the worker reports the token
expired through the JS coercion `1000 > "0"`. -/
theorem validateToken_systemFormat_taxonomy_witness :
    validateTokenC 1000
        (("h".toList) ++ '.' ::
          (base64urlEncode (strBytes (stringifyFlat
            [(("expires".toList), JPrim.str ("0".toList)),
             (("sessionId".toList), JPrim.str ("abc".toList))])) ++ '.' :: ("s".toList)))
        ("abc".toList) = .error .expired := by
  have h := validateToken_systemFormat_taxonomy
    [(("expires".toList), JPrim.str ("0".toList)),
     (("sessionId".toList), JPrim.str ("abc".toList))]
    ("h".toList) ("s".toList) 1000 ("abc".toList)
    (by
      intro kv hkv
      simp only [List.mem_cons, List.not_mem_nil, or_false] at hkv
      rcases hkv with rfl | rfl
      · refine ⟨by decide, fun s hs2 => ?_⟩
        injection hs2 with h9
        rw [← h9]
        decide
      · refine ⟨by decide, fun s hs2 => ?_⟩
        injection hs2 with h9
        rw [← h9]
        decide)
    (by decide) (by decide)
  rw [h]
  decide
